import Mathlib

/-!
The field parser and the probe handler of tasmota-exporter: a shallow embedding
of `cmd/tasmota-exporter/main.go`.

* A Go `string` is a sequence of bytes.  It is modelled as a list of characters,
  one per byte; every literal of the source is ASCII, and the string operations
  used by the source (`strings.Contains`, `strings.Split`, `strings.ReplaceAll`)
  only compare elements, so nothing depends on the alphabet.
* `float64` and `strconv.ParseFloat` belong to the Go runtime, not to the
  repository.  The record is parametric in the number type `F` (with its zero
  value) and `parse` takes the float parser as an argument `pf`, returning
  `none` where `ParseFloat` returns an error.
* A slice index that is out of range panics in Go.  `parseRow` therefore returns
  an `Option`: `none` stands for such a panic and for nothing else.
-/

set_option autoImplicit false

namespace Tasmota

/-- A Go string: its bytes in order. -/
abbrev Str := List Char

/-! ## The `strings` functions used by the source -/

/-- The Go call `strings.Contains(s, substr)`: some suffix of `s` starts with `substr`. -/
def Contains : Str → Str → Bool
  | [], substr => substr.isPrefixOf []
  | c :: cs, substr => substr.isPrefixOf (c :: cs) || Contains cs substr

/-- Put one more byte in front of the first piece of a split. -/
def consHead (c : Char) : List Str → List Str
  | [] => [[c]]
  | p :: ps => (c :: p) :: ps

/-- The scan behind `strings.Split` for a non-empty separator: walk the string
from the left; where the separator starts, close the current piece and skip the
separator (`skip` counts the separator bytes still to pass over); otherwise the
byte belongs to the current piece.  Occurrences are therefore the leftmost
non-overlapping ones, as in Go. -/
def splitGo (sep : Str) : Nat → Str → List Str
  | _, [] => [[]]
  | skip + 1, _ :: cs => splitGo sep skip cs
  | 0, c :: cs =>
    if sep.isPrefixOf (c :: cs) then [] :: splitGo sep (sep.length - 1) cs
    else consHead c (splitGo sep 0 cs)

/-- The Go call `strings.Split(s, sep)` for a non-empty `sep` (the source only
splits on non-empty literals). -/
def Split (s sep : Str) : List Str := splitGo sep 0 s

/-- The scan behind `strings.ReplaceAll` for a non-empty `old`: every leftmost
non-overlapping occurrence of `old` is replaced by `new`. -/
def replaceGo (old new : Str) : Nat → Str → Str
  | _, [] => []
  | skip + 1, _ :: cs => replaceGo old new skip cs
  | 0, c :: cs =>
    if old.isPrefixOf (c :: cs) then new ++ replaceGo old new (old.length - 1) cs
    else c :: replaceGo old new 0 cs

/-- The Go call `strings.ReplaceAll(s, old, new)` for a non-empty `old`. -/
def ReplaceAll (s old new : Str) : Str := replaceGo old new 0 s

/-! ## The record -/

/-- The struct `TasmotaPlug`. -/
structure TasmotaPlug (F : Type) where
  On : Bool
  Voltage : F
  Current : F
  Power : F
  ApparentPower : F
  ReactivePower : F
  Factor : F
  Today : F
  Yesterday : F
  Total : F
  deriving DecidableEq, Repr

/-! ## The literals of `parse` -/

/-- The row separator. -/
def sepS : Str := "{s}".toList
/-- The label/value separator. -/
def sepM : Str := "{m}".toList
/-- The row terminator. -/
def sepE : Str := "{e}".toList
/-- The marker of the power state. -/
def tokON : Str := "ON".toList
/-- The guard of the stripping step. -/
def tokTd : Str := "<td".toList
/-- The styled cell that precedes the number. -/
def styledCell : Str := "</td><td style=\x27text-align:left\x27>".toList
/-- The spacer cell that follows the number. -/
def spacerCell : Str := "</td><td>&nbsp;</td><td>".toList
/-- A single space. -/
def space : Str := " ".toList

/-! ## `parse` -/

/-- The `switch label` of `parse`, with `value` the parsed number.  The default
branch only writes a log line and leaves the record alone. -/
def assign {F : Type} (ret : TasmotaPlug F) (label : Str) (value : F) : TasmotaPlug F :=
  if label = "Voltage".toList then { ret with Voltage := value }
  else if label = "Current".toList then { ret with Current := value }
  else if label = "Active Power".toList then { ret with Power := value }
  else if label = "Apparent Power".toList then { ret with ApparentPower := value }
  else if label = "Reactive Power".toList then { ret with ReactivePower := value }
  else if label = "Power Factor".toList then { ret with Factor := value }
  else if label = "Energy Today".toList then { ret with Today := value }
  else if label = "Energy Yesterday".toList then { ret with Yesterday := value }
  else if label = "Energy Total".toList then { ret with Total := value }
  else ret

/-- The stripping step of `parse`: under the guard `strings.Contains(_, "<td")`
the styled cell and then the spacer cell are removed. -/
def strip (valueStrWithUnit : Str) : Str :=
  if Contains valueStrWithUnit tokTd then
    ReplaceAll (ReplaceAll valueStrWithUnit styledCell []) spacerCell []
  else valueStrWithUnit

/-- One iteration of the loop of `parse` on the record `ret`.  A `continue`
returns `ret` unchanged; `none` is an index out of range. -/
def parseRow {F : Type} (pf : Str → Option F) (ret : TasmotaPlug F) (row : Str) :
    Option (TasmotaPlug F) :=
  let rowRaw := Split row sepM
  if rowRaw.length < 2 then some ret
  else
    match rowRaw[0]?, rowRaw[1]? with
    | some label, some valueRaw =>
      let valueSplit := Split valueRaw sepE
      if valueSplit.length = 0 then some ret
      else
        match valueSplit[0]? with
        | none => none
        | some valueStrWithUnit =>
          let valueSplitWithUnit := Split (strip valueStrWithUnit) space
          if valueSplitWithUnit.length = 0 then some ret
          else
            match valueSplitWithUnit[0]? with
            | none => none
            | some tok =>
              match pf tok with
              | none => some ret
              | some value => some (assign ret label value)
    | _, _ => none

/-- The loop `for _, row := range rows`. -/
def parseRows {F : Type} (pf : Str → Option F) : List Str → TasmotaPlug F → Option (TasmotaPlug F)
  | [], ret => some ret
  | row :: rows, ret =>
    match parseRow pf ret row with
    | none => none
    | some ret1 => parseRows pf rows ret1

/-- The record `parse` starts from: `On` from the marker, every number zero. -/
def initial {F : Type} [Zero F] (input : Str) : TasmotaPlug F :=
  { On := Contains input tokON, Voltage := 0, Current := 0, Power := 0, ApparentPower := 0,
    ReactivePower := 0, Factor := 0, Today := 0, Yesterday := 0, Total := 0 }

/-- The function `parse`. -/
def parse {F : Type} [Zero F] (pf : Str → Option F) (input : Str) : Option (TasmotaPlug F) :=
  parseRows pf (Split input sepS) (initial input)

/-! ## Names for the parts of a row -/

/-- The nine numeric fields of `TasmotaPlug`. -/
inductive Field where
  | Voltage | Current | Power | ApparentPower | ReactivePower | Factor | Today | Yesterday | Total
  deriving DecidableEq, Repr

/-- The label that the lookup table of `parse` maps to each field. -/
def Field.label : Field → Str
  | .Voltage => "Voltage".toList
  | .Current => "Current".toList
  | .Power => "Active Power".toList
  | .ApparentPower => "Apparent Power".toList
  | .ReactivePower => "Reactive Power".toList
  | .Factor => "Power Factor".toList
  | .Today => "Energy Today".toList
  | .Yesterday => "Energy Yesterday".toList
  | .Total => "Energy Total".toList

/-- Read a numeric field of the record. -/
def TasmotaPlug.get {F : Type} (p : TasmotaPlug F) : Field → F
  | .Voltage => p.Voltage
  | .Current => p.Current
  | .Power => p.Power
  | .ApparentPower => p.ApparentPower
  | .ReactivePower => p.ReactivePower
  | .Factor => p.Factor
  | .Today => p.Today
  | .Yesterday => p.Yesterday
  | .Total => p.Total

/-- The label of a row: `rowRaw[0]`, the text before the first `{m}`. -/
def rowLabel (row : Str) : Str := (Split row sepM).headD []

/-- The value segment of a row: `valueSplit[0]`, the text of `rowRaw[1]` before
its first `{e}`. -/
def valueSegment (row : Str) : Str := (Split ((Split row sepM).getD 1 []) sepE).headD []

/-- The value token of a row: `valueSplitWithUnit[0]`, the first space-separated
token of the cleaned value segment. -/
def valueToken (row : Str) : Str := (Split (strip (valueSegment row)) space).headD []

/-- What one iteration of the loop does to the record when no index is out of
range: nothing for a row with fewer than two pieces or an unparsable token,
otherwise the `switch` on the label. -/
def rowEffect {F : Type} (pf : Str → Option F) (ret : TasmotaPlug F) (row : Str) : TasmotaPlug F :=
  if (Split row sepM).length < 2 then ret
  else
    match pf (valueToken row) with
    | none => ret
    | some value => assign ret (rowLabel row) value

/-! ## The probe handler

The collaborators of the handler are modelled as follows.

* Time is counted in milliseconds from the moment the handler starts.  A
  `context.Context` is the instant at which it is done, if there is one.
* The device behind a URL is described by what it answers and how long the
  complete answer takes.
* A registry holds the registered gauges with their current values; a gauge
  without labels is identified by its name, which is what `MustRegister` checks.
* The elapsed time `time.Since(start).Seconds()` is read from the clock and is
  an argument, `duration`.
* The events list records the network calls and the calls of `parse`; log lines
  are left out.
-/

/-- A `context.Context`: the instant (ms) at which it is cancelled or expires. -/
structure Context where
  doneAt : Option Nat
  deriving DecidableEq, Repr

/-- The Go value `context.Background()`: never done. -/
def Context.background : Context := { doneAt := none }

/-- The Go call `context.WithTimeout(parent, d)` made at instant 0: done when the
parent is done or after `d` ms, whichever comes first. -/
def Context.WithTimeout (parent : Context) (d : Nat) : Context :=
  match parent.doneAt with
  | none => { doneAt := some d }
  | some t => { doneAt := some (min t d) }

/-- What a completed exchange yields: an error from the GET, an error while
reading the body, or the body. -/
inductive Fetch where
  | getError
  | readError
  | body (b : Str)
  deriving DecidableEq, Repr

/-- The device behind a URL: the result of the exchange when nothing cuts it
short, and the time it takes. -/
structure Device where
  latency : Nat
  outcome : Fetch
  deriving DecidableEq, Repr

/-- An exchange `client.Do(req)` followed by `io.ReadAll(resp.Body)`, for a
client with the given `Timeout` and a request carrying `ctx`: it fails when the
timeout or the end of the context comes before the answer is complete (shown as
an error of the GET; an interrupted read of the body ends the probe alike). -/
def clientDo (timeout : Nat) (ctx : Context) (d : Device) : Fetch :=
  if timeout ≤ d.latency then Fetch.getError
  else
    match ctx.doneAt with
    | none => d.outcome
    | some t => if t ≤ d.latency then Fetch.getError else d.outcome

/-- The Go call `client.Get(url)` with its body read: `Get` builds the request
with `http.NewRequest`, which gives it the background context. -/
def clientGet (timeout : Nat) (d : Device) : Fetch :=
  clientDo timeout Context.background d

/-- A gauge made by `prometheus.NewGauge`. -/
structure Gauge (F : Type) where
  name : Str
  value : F
  deriving DecidableEq, Repr

/-- The Go call `prometheus.NewGauge` with the given name: the value starts at zero. -/
def NewGauge {F : Type} [Zero F] (name : Str) : Gauge F := { name := name, value := 0 }

/-- A `prometheus.Registry`: the registered gauges in order of registration. -/
abbrev Registry (F : Type) := List (Gauge F)

/-- The Go call `registry.MustRegister(g)`: it panics (`none`) when a gauge of
that name is registered already. -/
def MustRegister {F : Type} (registry : Registry F) (g : Gauge F) : Option (Registry F) :=
  if registry.any (fun e => e.name == g.name) then none else some (registry ++ [g])

/-- Several `MustRegister` calls one after the other. -/
def registerAll {F : Type} (registry : Registry F) : List (Gauge F) → Option (Registry F)
  | [] => some registry
  | g :: gs =>
    match MustRegister registry g with
    | none => none
    | some r => registerAll r gs

/-- The method `Set(v)` of the gauge called `name`, as seen through the registry. -/
def gaugeSet {F : Type} (registry : Registry F) (name : Str) (v : F) : Registry F :=
  registry.map (fun e => if e.name = name then { e with value := v } else e)

/-- The value the registry reports under a metric name. -/
def valueOf {F : Type} (registry : Registry F) (name : Str) : Option F :=
  (registry.find? (fun e => e.name == name)).map (fun e => e.value)

/-- What the handler does besides answering. -/
inductive Event where
  | get (url : Str)
  | parse (body : Str)
  deriving DecidableEq, Repr

/-- The body of a response: plain text, or the exposition of a registry. -/
inductive Body (F : Type) where
  | text (t : Str)
  | metrics (registry : Registry F)
  deriving DecidableEq, Repr

/-- A response: status code and body. -/
structure Response (F : Type) where
  status : Nat
  body : Body F
  deriving DecidableEq, Repr

/-- The Go call `http.Error(w, msg, code)`: the message and a newline as plain text. -/
def httpError {F : Type} (msg : Str) (code : Nat) : Response F :=
  { status := code, body := Body.text (msg ++ ['\n']) }

/-- An inbound request: the first value of the query parameter `target`, if the
parameter is there, and the context of the request. -/
structure Request where
  target : Option Str
  ctx : Context
  deriving DecidableEq, Repr

/-- The Go call `params.Get("target")`: the empty string when the parameter is absent. -/
def paramsGet (r : Request) : Str := r.target.getD []

/-- The URL asked of the device: `fmt.Sprintf("http://%s?m", target)`. -/
def probeURL (target : Str) : Str := "http://".toList ++ target ++ "?m".toList

/-- The ten gauges of `probeTasmota`, in the order they are registered. -/
def telemetryNames : List Str :=
  ["tasmota_on".toList, "tasmota_voltage_volts".toList, "tasmota_current_amperes".toList,
   "tasmota_power_watts".toList, "tasmota_apparent_power_voltamperes".toList,
   "tasmota_reactive_power_voltamperesreactive".toList, "tasmota_power_factor".toList,
   "tasmota_today_kwh_total".toList, "tasmota_yesterday_kwh_total".toList,
   "tasmota_kwh_total".toList]

set_option linter.unusedVariables false in
/-- The function `probeTasmota`.  Its argument `ctx` is never used: the fetch is
`client.Get` on a client with a timeout of 5 s.  The result is `none` on a panic,
else the success flag, the registry and the events. -/
def probeTasmota {F : Type} [Zero F] [One F] (pf : Str → Option F) (world : Str → Device)
    (ctx : Context) (target : Str) (registry : Registry F) :
    Option (Bool × Registry F × List Event) :=
  match registerAll registry (telemetryNames.map NewGauge) with
  | none => none
  | some reg =>
    match clientGet 5000 (world (probeURL target)) with
    | Fetch.getError => some (false, reg, [Event.get (probeURL target)])
    | Fetch.readError => some (false, reg, [Event.get (probeURL target)])
    | Fetch.body body =>
      match parse pf body with
      | none => none
      | some tp =>
        let reg := gaugeSet reg "tasmota_on".toList (if tp.On then 1 else 0)
        let reg := gaugeSet reg "tasmota_voltage_volts".toList tp.Voltage
        let reg := gaugeSet reg "tasmota_current_amperes".toList tp.Current
        let reg := gaugeSet reg "tasmota_power_watts".toList tp.Power
        let reg := gaugeSet reg "tasmota_apparent_power_voltamperes".toList tp.ApparentPower
        let reg := gaugeSet reg "tasmota_reactive_power_voltamperesreactive".toList tp.ReactivePower
        let reg := gaugeSet reg "tasmota_power_factor".toList tp.Factor
        let reg := gaugeSet reg "tasmota_today_kwh_total".toList tp.Today
        let reg := gaugeSet reg "tasmota_yesterday_kwh_total".toList tp.Yesterday
        let reg := gaugeSet reg "tasmota_kwh_total".toList tp.Total
        some (true, reg, [Event.get (probeURL target), Event.parse body])

/-- The function `tasmotaHandler`: `none` on a panic, else the response and the
events. -/
def tasmotaHandler {F : Type} [Zero F] [One F] (pf : Str → Option F) (world : Str → Device)
    (duration : F) (r : Request) : Option (Response F × List Event) :=
  let probeSuccessGauge : Gauge F := NewGauge "probe_success".toList
  let probeDurationGauge : Gauge F := NewGauge "probe_duration_seconds".toList
  let target := paramsGet r
  if target = [] then some (httpError "Target parameter is missing".toList 400, [])
  else
    let ctx := Context.WithTimeout r.ctx 5000
    match registerAll [] [probeSuccessGauge, probeDurationGauge] with
    | none => none
    | some registry =>
      match probeTasmota pf world ctx target registry with
      | none => none
      | some (success, registry, events) =>
        let registry := gaugeSet registry "probe_duration_seconds".toList duration
        let registry := if success then gaugeSet registry "probe_success".toList 1 else registry
        some ({ status := 200, body := Body.metrics registry }, events)

/-- The twelve metric names of a probe. -/
def metricNames : List Str :=
  ["probe_success".toList, "probe_duration_seconds".toList] ++ telemetryNames

/-! ## Inputs shaped like the test fixtures -/

/-- A row of the fixtures, `{s}L{m}W1 v W2 U{e}`: the field whose label is `L`,
the literal `v`, the unit `U`, and whether the decorative cells `W1` and `W2`
are there. -/
structure FixtureRow where
  field : Field
  value : Str
  unit : Str
  wrapped : Bool
  deriving DecidableEq, Repr

/-- The cell in front of the literal: the styled cell, or nothing. -/
def FixtureRow.cellBefore (r : FixtureRow) : Str := if r.wrapped then styledCell else []

/-- The cell behind the literal: the spacer cell, or nothing. -/
def FixtureRow.cellAfter (r : FixtureRow) : Str := if r.wrapped then spacerCell else []

/-- The value segment of a fixture row: `W1 v W2 U`. -/
def FixtureRow.segment (r : FixtureRow) : Str :=
  r.cellBefore ++ (r.value ++ (r.cellAfter ++ r.unit))

/-- The text of a fixture row behind its `{s}`: `L{m}W1 v W2 U{e}`. -/
def FixtureRow.body (r : FixtureRow) : Str :=
  r.field.label ++ (sepM ++ (r.segment ++ sepE))

/-- The text of a fixture row: `{s}L{m}W1 v W2 U{e}`. -/
def FixtureRow.text (r : FixtureRow) : Str := sepS ++ r.body

/-- The text of the rows, one after the other. -/
def fixtureText : List FixtureRow → Str
  | [] => []
  | r :: rs => r.text ++ fixtureText rs

/-- What the loop does with fixture rows: each row whose literal the float
parser accepts goes through the `switch` with its label. -/
def applyRows {F : Type} (pf : Str → Option F) (ret : TasmotaPlug F) (rows : List FixtureRow) :
    TasmotaPlug F :=
  rows.foldl (fun acc r =>
    match pf r.value with
    | none => acc
    | some x => assign acc r.field.label x) ret

/-- The same row without the decorative cells. -/
def FixtureRow.unwrap (r : FixtureRow) : FixtureRow := { r with wrapped := false }

/-- The bytes of a decimal literal: digits, the point and a sign. -/
def isDecimal (v : Str) : Bool :=
  v.all (fun c => c.isDigit || c == '.' || c == '-' || c == '+')

/-- A well-formed fixture row: the literal is decimal (so without spaces), the
unit starts with a space and contains none of `{s}`, `{m}`, `{e}`. -/
def FixtureRow.wellFormed (r : FixtureRow) : Bool :=
  isDecimal r.value && r.unit.head? == some ' ' && !Contains r.unit sepS
    && !Contains r.unit sepM && !Contains r.unit sepE

/-! ## The stripping step and the last row of a label, as the specification words them -/

/-- Removal of a substring as the specification means it, a literal removal:
the pieces between the occurrences of `pat`, put together again. -/
def removeAll (s pat : Str) : Str := (Split s pat).flatten

/-- The cleaned segment as the specification words it: the styled cell removed,
then the spacer cell, in that order and with no test beforehand. -/
def stripSpec (s : Str) : Str := removeAll (removeAll s styledCell) spacerCell

/-- The number a row offers to a field: that of its value token, when the row is
retained (it contains `{m}`), its label is exactly the field's label and the
float parser accepts the token. -/
def rowValue {F : Type} (pf : Str → Option F) (f : Field) (row : Str) : Option F :=
  if Contains row sepM = true ∧ rowLabel row = f.label then pf (valueToken row) else none

/-- The number of the last row, in the order of the input, that offers one to
the field. -/
def lastValue {F : Type} (pf : Str → Option F) (f : Field) (rows : List Str) : Option F :=
  (rows.filterMap (rowValue pf f)).getLast?

/-- A float parser for examples: a non-empty run of digits is read as a natural number. -/
def digitsParser (s : Str) : Option Nat :=
  if s ≠ [] ∧ s.all Char.isDigit then some (s.foldl (fun n c => 10 * n + (c.toNat - 48)) 0) else none

/-- A device for examples: it answers after 2 s with a page that carries a
`Voltage` row and the marker `ON`. -/
def sampleWorld : Str → Device :=
  fun _ => { latency := 2000, outcome := Fetch.body "{s}Voltage{m}237 V{e}ON".toList }

/-- A device for examples that refuses the connection. -/
def deadWorld : Str → Device :=
  fun _ => { latency := 10, outcome := Fetch.getError }

/-- A request for the target `plug:80` whose own context is never cancelled. -/
def sampleRequest : Request :=
  { target := some "plug:80".toList, ctx := Context.background }

/-- A request for the target `plug:80` that its client gives up after 1 s. -/
def cancelledRequest : Request :=
  { target := some "plug:80".toList, ctx := { doneAt := some 1000 } }

/-- The registry of a response, if the body is an exposition. -/
def Response.registry {F : Type} (r : Response F) : Registry F :=
  match r.body with
  | Body.text _ => []
  | Body.metrics registry => registry

/-- The number a run of digits denotes. -/
def digitsValue (s : Str) : Nat := s.foldl (fun n c => 10 * n + (c.toNat - 48)) 0

/-- A non-empty run of digits. -/
def isDigits (s : Str) : Bool := !s.isEmpty && s.all Char.isDigit

/-- A float parser for examples with decimal literals: `digits` or
`digits.digits` is read as the rational number it denotes (the number whose
nearest `float64` the Go call `strconv.ParseFloat` returns), anything else is
rejected. -/
def decimalParser (s : Str) : Option ℚ :=
  match s.dropWhile (fun c => c != '.') with
  | [] => if isDigits s then some (digitsValue s : ℚ) else none
  | _ :: frac =>
    if isDigits (s.takeWhile (fun c => c != '.')) && isDigits frac then
      some ((digitsValue (s.takeWhile (fun c => c != '.')) : ℚ)
        + (digitsValue frac : ℚ) / (10 : ℚ) ^ frac.length)
    else none

/-- The input of the test case `office-air-on` of `TestParser`. -/
def officeAirOn : Str :=
  "{t}</table><hr/>{t}{s}</th><th></th><th style=\x27text-align:center\x27><th></th><td>{e}".toList ++
  "{s}Voltage{m}</td><td style=\x27text-align:left\x27>236</td><td>&nbsp;</td><td> V{e}".toList ++
  "{s}Current{m}</td><td style=\x27text-align:left\x27>0.460</td><td>&nbsp;</td><td> A{e}".toList ++
  "{s}Active Power{m}</td><td style=\x27text-align:left\x27>51</td><td>&nbsp;</td><td> W{e}".toList ++
  "{s}Apparent Power{m}</td><td style=\x27text-align:left\x27>108</td><td>&nbsp;</td><td> VA{e}".toList ++
  "{s}Reactive Power{m}</td><td style=\x27text-align:left\x27>96</td><td>&nbsp;</td><td> VAr{e}".toList ++
  "{s}Power Factor{m}</td><td style=\x27text-align:left\x27>0.47</td><td>&nbsp;</td><td>                         {e}".toList ++
  "{s}Energy Today{m}</td><td style=\x27text-align:left\x27>0.003</td><td>&nbsp;</td><td> kWh{e}".toList ++
  "{s}Energy Yesterday{m}</td><td style=\x27text-align:left\x27>0.207</td><td>&nbsp;</td><td> kWh{e}".toList ++
  "{s}Energy Total{m}</td><td style=\x27text-align:left\x27>1.124</td><td>&nbsp;</td><td> kWh{e}".toList ++
  "</table><hr/>{t}</table>{t}<tr><td style=\x27width:100%;text-align:center;font-weight:bold;font-size:62px\x27>ON</td></tr><tr></tr></table>\n\n\t\t\t".toList

/-- What stands in front of the first row in `office-air-on`. -/
def officeAirPrefix : Str := "{t}</table><hr/>{t}{s}</th><th></th><th style=\x27text-align:center\x27><th></th><td>{e}".toList

/-- What stands behind the last row in `office-air-on`. -/
def officeAirSuffix : Str := "</table><hr/>{t}</table>{t}<tr><td style=\x27width:100%;text-align:center;font-weight:bold;font-size:62px\x27>ON</td></tr><tr></tr></table>\n\n\t\t\t".toList

/-- The nine rows of `office-air-on`. -/
def officeAirRows : List FixtureRow :=
  [{ field := Field.Voltage, value := "236".toList, unit := " V".toList, wrapped := true },
   { field := Field.Current, value := "0.460".toList, unit := " A".toList, wrapped := true },
   { field := Field.Power, value := "51".toList, unit := " W".toList, wrapped := true },
   { field := Field.ApparentPower, value := "108".toList, unit := " VA".toList, wrapped := true },
   { field := Field.ReactivePower, value := "96".toList, unit := " VAr".toList, wrapped := true },
   { field := Field.Factor, value := "0.47".toList, unit := "                         ".toList, wrapped := true },
   { field := Field.Today, value := "0.003".toList, unit := " kWh".toList, wrapped := true },
   { field := Field.Yesterday, value := "0.207".toList, unit := " kWh".toList, wrapped := true },
   { field := Field.Total, value := "1.124".toList, unit := " kWh".toList, wrapped := true }]

/-- The nine rows of `office-air-on` without their decorative cells. -/
def officeAirRowsBare : List FixtureRow :=
  [{ field := Field.Voltage, value := "236".toList, unit := " V".toList, wrapped := false },
   { field := Field.Current, value := "0.460".toList, unit := " A".toList, wrapped := false },
   { field := Field.Power, value := "51".toList, unit := " W".toList, wrapped := false },
   { field := Field.ApparentPower, value := "108".toList, unit := " VA".toList, wrapped := false },
   { field := Field.ReactivePower, value := "96".toList, unit := " VAr".toList, wrapped := false },
   { field := Field.Factor, value := "0.47".toList, unit := "                         ".toList, wrapped := false },
   { field := Field.Today, value := "0.003".toList, unit := " kWh".toList, wrapped := false },
   { field := Field.Yesterday, value := "0.207".toList, unit := " kWh".toList, wrapped := false },
   { field := Field.Total, value := "1.124".toList, unit := " kWh".toList, wrapped := false }]

/-- The record `TestParser` wants for `office-air-on`. -/
def officeAirWant : TasmotaPlug ℚ :=
  { On := true, Voltage := 236, Current := 0.46, Power := 51, ApparentPower := 108,
    ReactivePower := 96, Factor := 0.47, Today := 0.003, Yesterday := 0.207, Total := 1.124 }

/-- A record with every field set, for examples. -/
def sampleRecord : TasmotaPlug Nat :=
  { On := true, Voltage := 1, Current := 2, Power := 3, ApparentPower := 4,
    ReactivePower := 5, Factor := 6, Today := 7, Yesterday := 8, Total := 9 }

end Tasmota

namespace Tasmota

/-! ## Facts about the string functions -/

theorem consHead_ne_nil (c : Char) (l : List Str) : consHead c l ≠ [] := by
  cases l <;> simp [consHead]

theorem consHead_append (c : Char) (l m : List Str) (h : l ≠ []) :
    consHead c (l ++ m) = consHead c l ++ m := by
  cases l with
  | nil => exact absurd rfl h
  | cons p ps => simp [consHead]

theorem length_consHead (c : Char) (l : List Str) (h : l ≠ []) :
    (consHead c l).length = l.length := by
  cases l with
  | nil => exact absurd rfl h
  | cons p ps => simp [consHead]

theorem splitGo_ne_nil (sep : Str) (k : Nat) (s : Str) : splitGo sep k s ≠ [] := by
  induction s generalizing k with
  | nil => simp [splitGo]
  | cons c cs ih =>
    cases k with
    | zero =>
      simp only [splitGo]
      split
      · simp
      · exact consHead_ne_nil _ _
    | succ k => simpa only [splitGo] using ih k

theorem splitGo_cons_of_match (sep : Str) (c : Char) (cs : Str)
    (h : sep.isPrefixOf (c :: cs) = true) :
    splitGo sep 0 (c :: cs) = [] :: splitGo sep (sep.length - 1) cs := by
  simp [splitGo, h]

theorem splitGo_cons_of_no_match (sep : Str) (c : Char) (cs : Str)
    (h : sep.isPrefixOf (c :: cs) = false) :
    splitGo sep 0 (c :: cs) = consHead c (splitGo sep 0 cs) := by
  simp [splitGo, h]

theorem Split_ne_nil (s sep : Str) : Split s sep ≠ [] := splitGo_ne_nil sep 0 s

theorem length_Split_pos (s sep : Str) : 0 < (Split s sep).length :=
  List.length_pos.mpr (Split_ne_nil s sep)

theorem splitGo_skip (sep x b : Str) : splitGo sep x.length (x ++ b) = splitGo sep 0 b := by
  induction x with
  | nil => rfl
  | cons c cs ih => simpa [splitGo] using ih

/-- Where the string starts with the separator, the first piece is empty and the
scan goes on behind the separator. -/
theorem splitGo_sep_append (c : Char) (t b : Str) :
    splitGo (c :: t) 0 ((c :: t) ++ b) = [] :: splitGo (c :: t) 0 b := by
  have h : (c :: t).isPrefixOf (c :: (t ++ b)) = true := by
    rw [List.isPrefixOf_iff_prefix]; exact ⟨b, rfl⟩
  have h2 := splitGo_skip (c :: t) t b
  show splitGo (c :: t) 0 (c :: (t ++ b)) = _
  simp only [splitGo, h, if_true]
  show [] :: splitGo (c :: t) t.length (t ++ b) = _
  rw [h2]

theorem Contains_iff_occurs (s sub : Str) : Contains s sub = true ↔ sub <:+: s := by
  induction s with
  | nil => simp [Contains, List.isPrefixOf_iff_prefix]
  | cons c cs ih =>
    simp only [Contains, Bool.or_eq_true, ih, List.isPrefixOf_iff_prefix, List.infix_cons_iff]

theorem Contains_eq_false_iff (s sub : Str) : Contains s sub = false ↔ ¬ sub <:+: s := by
  rw [← Contains_iff_occurs]; simp

/-- A string without the separator is its own single piece. -/
theorem splitGo_of_not_Contains (sep s : Str) (h : Contains s sep = false) :
    splitGo sep 0 s = [s] := by
  induction s with
  | nil => rfl
  | cons c cs ih =>
    simp only [Contains, Bool.or_eq_false_iff] at h
    simp [splitGo, h.1, ih h.2, consHead]

theorem Split_of_not_Contains (s sep : Str) (h : Contains s sep = false) : Split s sep = [s] :=
  splitGo_of_not_Contains sep s h

/-- A string that splits in two pieces or more contains the separator. -/
theorem Contains_of_length_Split (s sep : Str) (h : 2 ≤ (Split s sep).length) :
    Contains s sep = true := by
  by_contra hc
  rw [Bool.not_eq_true] at hc
  rw [Split_of_not_Contains s sep hc] at h
  simp at h

theorem length_Split_of_Contains (s : Str) (c : Char) (t : Str) (h : Contains s (c :: t) = true) :
    2 ≤ (Split s (c :: t)).length := by
  unfold Split
  induction s with
  | nil => simp [Contains] at h
  | cons d ds ih =>
    by_cases hp : (c :: t).isPrefixOf (d :: ds) = true
    · simp only [splitGo, hp, if_true, List.length_cons]
      exact Nat.succ_le_succ (List.length_pos.mpr (splitGo_ne_nil _ _ _))
    · have hc : Contains ds (c :: t) = true := by
        simp only [Contains, Bool.or_eq_true] at h
        rcases h with h | h
        · exact absurd h hp
        · exact h
      simp only [splitGo, hp]
      rw [if_neg (by simp), length_consHead _ _ (splitGo_ne_nil _ _ _)]
      exact ih hc

/-- A separator whose first byte does not occur again in it cannot start inside
`a` and run over into a copy of itself. -/
theorem prefix_of_prefix_append_sep (c : Char) (t a b : Str) (hc : c ∉ t) (ha : a ≠ [])
    (h : (c :: t) <+: a ++ (c :: t) ++ b) : (c :: t) <+: a := by
  rcases Nat.le_total (c :: t).length a.length with hl | hl
  · exact List.prefix_of_prefix_length_le h (by simp [List.append_assoc]) hl
  · have hpre : a <+: c :: t :=
      List.prefix_of_prefix_length_le (by simp [List.append_assoc]) h hl
    obtain ⟨r, hr⟩ := hpre
    obtain ⟨w, hw⟩ := h
    rw [← hr, List.append_assoc, List.append_assoc, List.append_assoc] at hw
    have hw2 := List.append_cancel_left hw
    cases a with
    | nil => exact absurd rfl ha
    | cons e a1 =>
      cases r with
      | nil => simp at hr; exact ⟨[], by simp [hr]⟩
      | cons d r1 =>
        simp only [List.cons_append, List.cons.injEq] at hr hw2
        exfalso
        apply hc
        rw [← hr.2]
        simp [hw2.1, hr.1]

/-- Splitting at a separator: for a separator whose first byte does not occur
again in it (every separator of the source is such), the pieces of
`a ++ sep ++ b` are the pieces of `a` followed by the pieces of `b`. -/
theorem splitGo_append_sep (c : Char) (t : Str) (hc : c ∉ t) (a b : Str) :
    splitGo (c :: t) 0 (a ++ (c :: t) ++ b)
      = splitGo (c :: t) 0 a ++ splitGo (c :: t) 0 b := by
  generalize hn : a.length = n
  induction n using Nat.strong_induction_on generalizing a with
  | _ n ih =>
    cases a with
    | nil => simpa [splitGo] using splitGo_sep_append c t b
    | cons x a1 =>
      by_cases hp : (c :: t).isPrefixOf (x :: (a1 ++ (c :: t) ++ b)) = true
      · have hpa := prefix_of_prefix_append_sep c t (x :: a1) b hc (by simp)
          (List.isPrefixOf_iff_prefix.mp hp)
        obtain ⟨a2, ha2⟩ := hpa
        rw [← ha2]
        have hlen : a2.length < n := by
          rw [← hn, ← ha2]; simp; omega
        have e1 : (c :: t) ++ a2 ++ (c :: t) ++ b = (c :: t) ++ (a2 ++ (c :: t) ++ b) := by
          simp [List.append_assoc]
        rw [e1, splitGo_sep_append, splitGo_sep_append, ih _ hlen a2 rfl]
        rfl
      · have hpa : (c :: t).isPrefixOf (x :: a1) = false := by
          rw [Bool.eq_false_iff]
          intro hq
          apply hp
          rw [List.isPrefixOf_iff_prefix] at hq ⊢
          exact hq.trans ⟨(c :: t) ++ b, by simp [List.append_assoc]⟩
        have hp2 : (c :: t).isPrefixOf (x :: (a1 ++ (c :: t) ++ b)) = false :=
          Bool.eq_false_iff.mpr hp
        have hlen : a1.length < n := by rw [← hn]; simp
        have := ih _ hlen a1 rfl
        show splitGo (c :: t) 0 (x :: (a1 ++ (c :: t) ++ b))
          = splitGo (c :: t) 0 (x :: a1) ++ splitGo (c :: t) 0 b
        rw [splitGo_cons_of_no_match _ _ _ hp2, splitGo_cons_of_no_match _ _ _ hpa, this,
          consHead_append _ _ _ (splitGo_ne_nil _ _ _)]

theorem Split_append_sep (c : Char) (t : Str) (hc : c ∉ t) (a b : Str) :
    Split (a ++ (c :: t) ++ b) (c :: t) = Split a (c :: t) ++ Split b (c :: t) :=
  splitGo_append_sep c t hc a b

end Tasmota
namespace Tasmota

/-! ## Occurrences across a concatenation -/

theorem isPrefixOf_cons_of_ne (c : Char) (t : Str) (x : Char) (s : Str) (h : c ≠ x) :
    (c :: t).isPrefixOf (x :: s) = false := by
  simp [List.isPrefixOf, h]

/-- No occurrence starts inside a stretch that lacks the first byte of the pattern. -/
theorem Contains_append_of_head_not_mem (c : Char) (t a b : Str) (h : c ∉ a) :
    Contains (a ++ b) (c :: t) = Contains b (c :: t) := by
  induction a with
  | nil => rfl
  | cons x a ih =>
    have hx : c ≠ x := fun e => h (by simp [e])
    have ha : c ∉ a := fun e => h (List.mem_cons_of_mem _ e)
    show Contains (x :: (a ++ b)) (c :: t) = _
    simp only [Contains, isPrefixOf_cons_of_ne c t x _ hx, Bool.false_or, ih ha]

theorem Contains_of_head_not_mem (c : Char) (t a : Str) (h : c ∉ a) :
    Contains a (c :: t) = false := by
  have := Contains_append_of_head_not_mem c t a [] h
  simpa [Contains] using this

/-- A pattern that starts inside `y` and runs over into `d :: b` ends inside `y`
when `d` is not among its bytes after the first. -/
theorem prefix_left_of_not_mem_tail (c : Char) (t y : Str) (d : Char) (b : Str)
    (hy : y ≠ []) (hd : d ∉ t) (h : (c :: t) <+: y ++ d :: b) : (c :: t) <+: y := by
  rcases Nat.le_total (c :: t).length y.length with hl | hl
  · exact List.prefix_of_prefix_length_le h (List.prefix_append _ _) hl
  · have hpre : y <+: c :: t := List.prefix_of_prefix_length_le (List.prefix_append _ _) h hl
    obtain ⟨r, hr⟩ := hpre
    obtain ⟨w, hw⟩ := h
    rw [← hr, List.append_assoc] at hw
    have hw2 := List.append_cancel_left hw
    cases r with
    | nil => exact ⟨[], by simpa using hr.symm⟩
    | cons e r1 =>
      cases y with
      | nil => exact absurd rfl hy
      | cons x y1 =>
        simp only [List.cons_append, List.cons.injEq] at hr hw2
        exfalso
        apply hd
        rw [← hr.2, hw2.1]
        simp

/-- Occurrences in `a ++ d :: b` lie in `a` or in `d :: b` when `d` is not among
the bytes of the pattern after the first. -/
theorem Contains_append_cons (c : Char) (t a : Str) (d : Char) (b : Str) (hd : d ∉ t) :
    Contains (a ++ d :: b) (c :: t) = (Contains a (c :: t) || Contains (d :: b) (c :: t)) := by
  induction a with
  | nil => simp [Contains]
  | cons x a ih =>
    have hp : (c :: t).isPrefixOf (x :: (a ++ d :: b)) = (c :: t).isPrefixOf (x :: a) := by
      rw [Bool.eq_iff_iff, List.isPrefixOf_iff_prefix, List.isPrefixOf_iff_prefix]
      constructor
      · intro h
        exact prefix_left_of_not_mem_tail c t (x :: a) d b (by simp) hd h
      · intro h
        exact h.trans (List.prefix_append _ _)
    show Contains (x :: (a ++ d :: b)) (c :: t) = _
    simp only [Contains, hp, ih, Bool.or_assoc]

/-- A pattern that starts inside `y ++ [d]` and runs over into `b` ends inside
`y ++ [d]` when `d` is not among its bytes before the last. -/
theorem prefix_left_of_not_mem_dropLast (sep y : Str) (d : Char) (b : Str)
    (hd : d ∉ sep.dropLast) (h : sep <+: (y ++ [d]) ++ b) : sep <+: y ++ [d] := by
  rcases Nat.le_total sep.length (y ++ [d]).length with hl | hl
  · exact List.prefix_of_prefix_length_le h (List.prefix_append _ _) hl
  · have hpre : y ++ [d] <+: sep := List.prefix_of_prefix_length_le (List.prefix_append _ _) h hl
    obtain ⟨r, hr⟩ := hpre
    cases r with
    | nil => exact ⟨[], by simpa using hr.symm⟩
    | cons e r1 =>
      exfalso
      apply hd
      rw [← hr, List.dropLast_append_of_ne_nil _ (by simp)]
      simp

/-- Occurrences in `(a ++ [d]) ++ b` lie in `a ++ [d]` or in `b` when `d` is not
among the bytes of the pattern before the last. -/
theorem Contains_concat_append (c : Char) (t a : Str) (d : Char) (b : Str)
    (hd : d ∉ (c :: t).dropLast) :
    Contains ((a ++ [d]) ++ b) (c :: t)
      = (Contains (a ++ [d]) (c :: t) || Contains b (c :: t)) := by
  have key : ∀ y : Str, (c :: t).isPrefixOf ((y ++ [d]) ++ b) = (c :: t).isPrefixOf (y ++ [d]) := by
    intro y
    rw [Bool.eq_iff_iff, List.isPrefixOf_iff_prefix, List.isPrefixOf_iff_prefix]
    exact ⟨prefix_left_of_not_mem_dropLast _ y d b hd, fun h => h.trans (List.prefix_append _ _)⟩
  induction a with
  | nil =>
    have := key []
    simp only [List.nil_append, List.singleton_append] at this ⊢
    simp only [Contains, this]
    simp
  | cons x a ih =>
    have := key (x :: a)
    simp only [List.cons_append] at this ⊢
    simp only [Contains, this, ih, Bool.or_assoc]

/-- The first piece of `(a ++ [d]) ++ b` is `a ++ [d]` followed by the first piece
of `b`, when `a ++ [d]` is free of the separator and `d` is not among the bytes
of the separator before the last. -/
theorem splitGo_concat_append (c : Char) (t a : Str) (d : Char) (b p : Str) (ps : List Str)
    (hd : d ∉ (c :: t).dropLast) (ha : Contains (a ++ [d]) (c :: t) = false)
    (hb : splitGo (c :: t) 0 b = p :: ps) :
    splitGo (c :: t) 0 ((a ++ [d]) ++ b) = ((a ++ [d]) ++ p) :: ps := by
  have key : ∀ y : Str, Contains (y ++ [d]) (c :: t) = false →
      (c :: t).isPrefixOf ((y ++ [d]) ++ b) = false := by
    intro y hy
    rw [Bool.eq_false_iff]
    intro h
    rw [List.isPrefixOf_iff_prefix] at h
    have h2 := prefix_left_of_not_mem_dropLast _ y d b hd h
    have h3 : Contains (y ++ [d]) (c :: t) = true :=
      (Contains_iff_occurs _ _).mpr h2.isInfix
    rw [hy] at h3
    exact Bool.noConfusion h3
  induction a with
  | nil =>
    have := key [] ha
    simp only [List.nil_append, List.singleton_append] at this ⊢
    rw [splitGo_cons_of_no_match _ _ _ this, hb]
    rfl
  | cons x a ih =>
    have := key (x :: a) ha
    have ha2 : Contains (a ++ [d]) (c :: t) = false := by
      simp only [List.cons_append, Contains, Bool.or_eq_false_iff] at ha
      exact ha.2
    simp only [List.cons_append] at this ⊢
    rw [splitGo_cons_of_no_match _ _ _ this, ih ha2]
    rfl

/-! ## `ReplaceAll` with an empty replacement -/

theorem replaceGo_skip (old new x b : Str) :
    replaceGo old new x.length (x ++ b) = replaceGo old new 0 b := by
  induction x with
  | nil => rfl
  | cons c cs ih => simpa [replaceGo] using ih

/-- Where the string starts with `old`, the occurrence is replaced and the scan
goes on behind it. -/
theorem replaceGo_old_append (c : Char) (t new b : Str) :
    replaceGo (c :: t) new 0 ((c :: t) ++ b) = new ++ replaceGo (c :: t) new 0 b := by
  have h : (c :: t).isPrefixOf (c :: (t ++ b)) = true := by
    rw [List.isPrefixOf_iff_prefix]; exact ⟨b, rfl⟩
  have h2 := replaceGo_skip (c :: t) new t b
  show replaceGo (c :: t) new 0 (c :: (t ++ b)) = _
  simp only [replaceGo, h, if_true]
  show new ++ replaceGo (c :: t) new t.length (t ++ b) = _
  rw [h2]

/-- A stretch that lacks the first byte of `old` is copied. -/
theorem replaceGo_append_of_head_not_mem (c : Char) (t new a b : Str) (h : c ∉ a) :
    replaceGo (c :: t) new 0 (a ++ b) = a ++ replaceGo (c :: t) new 0 b := by
  induction a with
  | nil => rfl
  | cons x a ih =>
    have hx : c ≠ x := fun e => h (by simp [e])
    have ha : c ∉ a := fun e => h (List.mem_cons_of_mem _ e)
    show replaceGo (c :: t) new 0 (x :: (a ++ b)) = _
    simp only [replaceGo, isPrefixOf_cons_of_ne c t x _ hx, ih ha]
    simp

end Tasmota
namespace Tasmota

/-! ## `parse` never indexes out of range -/

theorem parseRow_eq {F : Type} (pf : Str → Option F) (ret : TasmotaPlug F) (row : Str) :
    parseRow pf ret row = some (rowEffect pf ret row) := by
  unfold parseRow rowEffect valueToken valueSegment rowLabel
  rcases h : Split row sepM with _ | ⟨label, _ | ⟨valueRaw, rest⟩⟩
  · simp
  · simp
  · rcases h2 : Split valueRaw sepE with _ | ⟨v, vs⟩
    · exact absurd h2 (Split_ne_nil _ _)
    · rcases h3 : Split (strip v) space with _ | ⟨tok, toks⟩
      · exact absurd h3 (Split_ne_nil _ _)
      · have hlen : ¬ (rest.length + 1 + 1 < 2) := by omega
        cases h4 : pf tok <;> simp [h2, h3, h4, hlen]

theorem parseRows_eq {F : Type} (pf : Str → Option F) (rows : List Str) (ret : TasmotaPlug F) :
    parseRows pf rows ret = some (rows.foldl (rowEffect pf) ret) := by
  induction rows generalizing ret with
  | nil => rfl
  | cons row rows ih => simp [parseRows, parseRow_eq, ih]

theorem parse_eq {F : Type} [Zero F] (pf : Str → Option F) (input : Str) :
    parse pf input = some ((Split input sepS).foldl (rowEffect pf) (initial input)) :=
  parseRows_eq pf _ _

/-! ## The power state -/

theorem assign_On {F : Type} (ret : TasmotaPlug F) (label : Str) (value : F) :
    (assign ret label value).On = ret.On := by
  unfold assign
  repeat' split
  all_goals rfl

theorem rowEffect_On {F : Type} (pf : Str → Option F) (ret : TasmotaPlug F) (row : Str) :
    (rowEffect pf ret row).On = ret.On := by
  unfold rowEffect
  split
  · rfl
  · split
    · rfl
    · exact assign_On _ _ _

theorem foldl_rowEffect_On {F : Type} (pf : Str → Option F) (rows : List Str)
    (ret : TasmotaPlug F) : (rows.foldl (rowEffect pf) ret).On = ret.On := by
  induction rows generalizing ret with
  | nil => rfl
  | cons row rows ih => rw [List.foldl_cons, ih, rowEffect_On]

/-- C2: for every input, `parse` returns a record whose `On` is true exactly
when the input contains the substring `ON`, wherever it stands. -/
theorem parse_On_iff {F : Type} [Zero F] (pf : Str → Option F) (input : Str) :
    ∃ r, parse pf input = some r ∧
      (r.On = true ↔ ∃ a b : Str, input = a ++ ['O', 'N'] ++ b) := by
  refine ⟨_, parse_eq pf input, ?_⟩
  rw [foldl_rowEffect_On]
  show Contains input tokON = true ↔ _
  rw [Contains_iff_occurs]
  constructor
  · rintro ⟨a, b, h⟩; exact ⟨a, b, h.symm⟩
  · rintro ⟨a, b, h⟩; exact ⟨a, b, h.symm⟩

/-! ## Fields and the lookup table -/

theorem assign_label {F : Type} (ret : TasmotaPlug F) (f : Field) (value : F) :
    (assign ret f.label value).get f = value := by
  cases f <;> simp [assign, Field.label, TasmotaPlug.get]

theorem assign_label_ne {F : Type} (ret : TasmotaPlug F) (f g : Field) (value : F)
    (h : g ≠ f) : (assign ret f.label value).get g = ret.get g := by
  cases f <;> cases g <;> first
    | exact absurd rfl h
    | simp [assign, Field.label, TasmotaPlug.get]

theorem assign_other {F : Type} (ret : TasmotaPlug F) (label : Str) (value : F)
    (h : ∀ f : Field, label ≠ f.label) : assign ret label value = ret := by
  have h1 := h .Voltage; have h2 := h .Current; have h3 := h .Power
  have h4 := h .ApparentPower; have h5 := h .ReactivePower; have h6 := h .Factor
  have h7 := h .Today; have h8 := h .Yesterday; have h9 := h .Total
  simp only [Field.label] at h1 h2 h3 h4 h5 h6 h7 h8 h9
  unfold assign
  rw [if_neg h1, if_neg h2, if_neg h3, if_neg h4, if_neg h5, if_neg h6, if_neg h7, if_neg h8,
    if_neg h9]

theorem assign_get_of_ne {F : Type} (ret : TasmotaPlug F) (label : Str) (value : F) (g : Field)
    (h : label ≠ g.label) : (assign ret label value).get g = ret.get g := by
  by_cases hl : ∃ f : Field, label = f.label
  · obtain ⟨f, rfl⟩ := hl
    exact assign_label_ne ret f g value (fun e => h (by rw [e]))
  · rw [assign_other ret label value (fun f e => hl ⟨f, e⟩)]

end Tasmota
namespace Tasmota

/-! ## Rows that are missing, malformed or unknown -/

theorem rowEffect_get_of_no_row {F : Type} (pf : Str → Option F) (f : Field)
    (ret : TasmotaPlug F) (row : Str)
    (h : ¬ (Contains row sepM = true ∧ (Split row sepM).head? = some f.label)) :
    (rowEffect pf ret row).get f = ret.get f := by
  unfold rowEffect
  split
  · rfl
  · rename_i hlen
    split
    · rfl
    · apply assign_get_of_ne
      intro hl
      apply h
      refine ⟨Contains_of_length_Split row sepM (by omega), ?_⟩
      unfold rowLabel at hl
      rcases hs : Split row sepM with _ | ⟨l, ls⟩
      · exact absurd hs (Split_ne_nil _ _)
      · rw [hs] at hl; simpa using hl

theorem foldl_rowEffect_get_of_no_row {F : Type} (pf : Str → Option F) (f : Field)
    (rows : List Str) (ret : TasmotaPlug F)
    (h : ∀ row ∈ rows, ¬ (Contains row sepM = true ∧ (Split row sepM).head? = some f.label)) :
    (rows.foldl (rowEffect pf) ret).get f = ret.get f := by
  induction rows generalizing ret with
  | nil => rfl
  | cons row rows ih =>
    rw [List.foldl_cons, ih _ (fun r hr => h r (List.mem_cons_of_mem _ hr)),
      rowEffect_get_of_no_row pf f ret row (h row (List.mem_cons_self _ _))]

theorem initial_get {F : Type} [Zero F] (input : Str) (f : Field) :
    (initial input : TasmotaPlug F).get f = 0 := by
  cases f <;> rfl

/-- C3: for every input and every field, if no piece of the input split on
`{s}` contains `{m}` with exactly the field's label before its first `{m}`, then
`parse` returns a record in which that field is 0. -/
theorem parse_field_zero_of_no_row {F : Type} [Zero F] (pf : Str → Option F) (input : Str)
    (f : Field)
    (h : ∀ row ∈ Split input sepS,
      ¬ (Contains row sepM = true ∧ (Split row sepM).head? = some f.label)) :
    ∃ r, parse pf input = some r ∧ r.get f = 0 := by
  refine ⟨_, parse_eq pf input, ?_⟩
  rw [foldl_rowEffect_get_of_no_row pf f _ _ h, initial_get]

/-- C3 at an input with a `Voltage` row and a lower-case `current` row: the
field `Current` has no row. -/
theorem parse_field_zero_of_no_row_witness :
    (∀ row ∈ Split "x{s}Voltage{m}237 V{e}{s}current{m}5 A{e}".toList sepS,
      ¬ (Contains row sepM = true ∧ (Split row sepM).head? = some Field.Current.label)) ∧
    ∃ r, parse digitsParser "x{s}Voltage{m}237 V{e}{s}current{m}5 A{e}".toList = some r ∧
      r.get Field.Current = 0 :=
  ⟨by decide, parse_field_zero_of_no_row digitsParser _ Field.Current (by decide)⟩

theorem rowEffect_of_unparsable {F : Type} (pf : Str → Option F) (ret : TasmotaPlug F)
    (row : Str) (htok : pf (valueToken row) = none) : rowEffect pf ret row = ret := by
  unfold rowEffect
  split
  · rfl
  · rw [htok]

/-- C4: a retained row whose value token the float parser rejects is skipped:
the iteration returns the record it was given, and `parse` returns what the loop
returns on the row list with that row removed. -/
theorem parse_skips_unparsable_row {F : Type} [Zero F] (pf : Str → Option F)
    (input : Str) (pre : List Str) (row : Str) (post : List Str)
    (hs : Split input sepS = pre ++ row :: post)
    (hret : Contains row sepM = true)
    (htok : pf (valueToken row) = none) :
    (∀ ret : TasmotaPlug F, parseRow pf ret row = some ret) ∧
    ∃ r, parse pf input = some r ∧ parseRows pf (pre ++ post) (initial input) = some r := by
  have _hretained := length_Split_of_Contains row '{' ['m', '}'] hret
  refine ⟨fun ret => ?_, _, parse_eq pf input, ?_⟩
  · rw [parseRow_eq, rowEffect_of_unparsable pf ret row htok]
  · rw [parseRows_eq, hs, List.foldl_append, List.foldl_append, List.foldl_cons,
      rowEffect_of_unparsable pf _ row htok]

/-- C4 at an input whose `Voltage` row carries the token `abc`, followed by a
good `Active Power` row. -/
theorem parse_skips_unparsable_row_witness :
    Split "{s}Voltage{m}abc V{e}{s}Active Power{m}7 W{e}".toList sepS
      = [[]] ++ "Voltage{m}abc V{e}".toList :: ["Active Power{m}7 W{e}".toList] ∧
    Contains "Voltage{m}abc V{e}".toList sepM = true ∧
    digitsParser (valueToken "Voltage{m}abc V{e}".toList) = none ∧
    ((∀ ret : TasmotaPlug Nat,
        parseRow digitsParser ret "Voltage{m}abc V{e}".toList = some ret) ∧
      ∃ r, parse digitsParser "{s}Voltage{m}abc V{e}{s}Active Power{m}7 W{e}".toList = some r ∧
        parseRows digitsParser ([[]] ++ ["Active Power{m}7 W{e}".toList])
          (initial "{s}Voltage{m}abc V{e}{s}Active Power{m}7 W{e}".toList) = some r) :=
  ⟨by decide, by decide, by decide,
    parse_skips_unparsable_row digitsParser _ _ _ _ (by decide) (by decide) (by decide)⟩

/-- C5: a retained row whose value token parses to `x` sets the field of its
label to `x` and leaves the other numeric fields and `On` as they were when the
label is one of the nine of the lookup table, and returns the record unchanged
for any other label. -/
theorem parseRow_frame {F : Type} (pf : Str → Option F) (ret : TasmotaPlug F) (row : Str)
    (x : F) (hret : Contains row sepM = true) (hx : pf (valueToken row) = some x) :
    (∀ f : Field, rowLabel row = f.label →
      ∃ r, parseRow pf ret row = some r ∧ r.get f = x ∧
        (∀ g : Field, g ≠ f → r.get g = ret.get g) ∧ r.On = ret.On) ∧
    ((∀ f : Field, rowLabel row ≠ f.label) → parseRow pf ret row = some ret) := by
  have hlen : ¬ (Split row sepM).length < 2 := by
    have := length_Split_of_Contains row '{' ['m', '}'] hret
    exact Nat.not_lt.mpr this
  have he : rowEffect pf ret row = assign ret (rowLabel row) x := by
    unfold rowEffect
    rw [if_neg hlen, hx]
  constructor
  · intro f hf
    refine ⟨_, parseRow_eq pf ret row, ?_, ?_, ?_⟩
    · rw [he, hf, assign_label]
    · intro g hg
      rw [he, hf, assign_label_ne _ _ _ _ hg]
    · rw [he, assign_On]
  · intro h
    rw [parseRow_eq, he, assign_other _ _ _ h]

/-- C5 at the row `Voltage{m}237 V{e}` on a record with every field set. -/
theorem parseRow_frame_witness :
    Contains "Voltage{m}237 V{e}".toList sepM = true ∧
    digitsParser (valueToken "Voltage{m}237 V{e}".toList) = some 237 ∧
    ((∀ f : Field, rowLabel "Voltage{m}237 V{e}".toList = f.label →
      ∃ r, parseRow digitsParser sampleRecord "Voltage{m}237 V{e}".toList = some r ∧
        r.get f = 237 ∧ (∀ g : Field, g ≠ f → r.get g = sampleRecord.get g) ∧
        r.On = sampleRecord.On) ∧
    ((∀ f : Field, rowLabel "Voltage{m}237 V{e}".toList ≠ f.label) →
      parseRow digitsParser sampleRecord "Voltage{m}237 V{e}".toList = some sampleRecord)) :=
  ⟨by decide, by decide, parseRow_frame digitsParser _ _ 237 (by decide) (by decide)⟩

/-- C6: `parse` never fails.  Splitting on a non-empty separator yields at least
one piece, no iteration of the loop takes an index out of range, and `parse`
returns a record for every input. -/
theorem parse_never_fails {F : Type} [Zero F] (pf : Str → Option F) (input : Str) :
    (∀ (s : Str) (c : Char) (t : Str), 1 ≤ (Split s (c :: t)).length) ∧
    (∀ (ret : TasmotaPlug F) (row : Str), ∃ r, parseRow pf ret row = some r) ∧
    ∃ r, parse pf input = some r :=
  ⟨fun s c t => length_Split_pos s (c :: t), fun ret row => ⟨_, parseRow_eq pf ret row⟩,
    _, parse_eq pf input⟩

end Tasmota
namespace Tasmota

/-! ## The value segment of a fixture row -/

theorem Contains_styledCell_append (b : Str) : Contains (styledCell ++ b) tokTd = true := by
  rw [Contains_iff_occurs]
  exact ⟨"</td>".toList, " style=\x27text-align:left\x27>".toList ++ b, rfl⟩

/-- No occurrence of the styled cell starts inside a spacer cell. -/
theorem replaceGo_styledCell_spacerCell (b : Str) :
    replaceGo styledCell [] 0 (spacerCell ++ b) = spacerCell ++ replaceGo styledCell [] 0 b := by
  simp [replaceGo, styledCell, spacerCell, List.isPrefixOf]

theorem styledCell_eq : styledCell = '<' :: styledCell.tail := rfl

theorem spacerCell_eq : spacerCell = '<' :: spacerCell.tail := rfl

/-- Stripping a segment `W1 v W2 U`, wrapped or not, leaves the literal followed
by a unit that still starts with its space. -/
theorem strip_segment (wrapped : Bool) (v u : Str) (hv : '<' ∉ v) :
    ∃ u1, strip ((if wrapped then styledCell else []) ++
        (v ++ ((if wrapped then spacerCell else []) ++ ' ' :: u))) = v ++ ' ' :: u1 := by
  have hvs : '<' ∉ v ++ [' '] := by
    intro h
    rcases List.mem_append.mp h with h | h
    · exact hv h
    · simp at h
  have e1 : ∀ w : Str, v ++ ' ' :: w = (v ++ [' ']) ++ w := by intro w; simp
  cases wrapped with
  | false =>
    simp only [Bool.false_eq_true, if_false, List.nil_append]
    unfold strip
    split
    · refine ⟨replaceGo spacerCell [] 0 (replaceGo styledCell [] 0 u), ?_⟩
      unfold ReplaceAll
      rw [e1 u, styledCell_eq, replaceGo_append_of_head_not_mem _ _ _ _ _ hvs, ← styledCell_eq,
        spacerCell_eq, replaceGo_append_of_head_not_mem _ _ _ _ _ hvs, ← spacerCell_eq, ← e1]
    · exact ⟨u, rfl⟩
  | true =>
    simp only [if_true]
    unfold strip
    rw [if_pos (Contains_styledCell_append _)]
    refine ⟨replaceGo spacerCell [] 0 (replaceGo styledCell [] 0 u), ?_⟩
    unfold ReplaceAll
    have s1 : replaceGo styledCell [] 0 (styledCell ++ (v ++ (spacerCell ++ ' ' :: u)))
        = v ++ (spacerCell ++ ' ' :: replaceGo styledCell [] 0 u) := by
      have h1 := replaceGo_old_append '<' styledCell.tail [] (v ++ (spacerCell ++ ' ' :: u))
      rw [← styledCell_eq] at h1
      have h2 := replaceGo_append_of_head_not_mem '<' styledCell.tail [] v
        (spacerCell ++ ' ' :: u) hv
      rw [← styledCell_eq] at h2
      have h3 := replaceGo_append_of_head_not_mem '<' styledCell.tail [] [' '] u (by simp)
      rw [← styledCell_eq] at h3
      rw [h1, List.nil_append, h2, replaceGo_styledCell_spacerCell]
      simp only [List.singleton_append] at h3
      rw [h3]
    have s2 : ∀ w : Str, replaceGo spacerCell [] 0 (v ++ (spacerCell ++ ' ' :: w))
        = v ++ ' ' :: replaceGo spacerCell [] 0 w := by
      intro w
      have h1 := replaceGo_append_of_head_not_mem '<' spacerCell.tail [] v
        (spacerCell ++ ' ' :: w) hv
      rw [← spacerCell_eq] at h1
      have h2 := replaceGo_old_append '<' spacerCell.tail [] (' ' :: w)
      rw [← spacerCell_eq] at h2
      have h3 := replaceGo_append_of_head_not_mem '<' spacerCell.tail [] [' '] w (by simp)
      rw [← spacerCell_eq] at h3
      simp only [List.singleton_append] at h3
      rw [h1, h2, List.nil_append, h3]
    rw [s1, s2]

/-- The first space-separated token of a literal followed by a space. -/
theorem head_Split_space (v u : Str) (hv : ' ' ∉ v) :
    (Split (v ++ ' ' :: u) space).headD [] = v := by
  have h := Split_append_sep ' ' [] (by simp) v u
  have e : v ++ [' '] ++ u = v ++ ' ' :: u := by simp
  rw [e] at h
  show (Split (v ++ ' ' :: u) [' ']).headD [] = v
  rw [h, Split_of_not_Contains v [' '] (Contains_of_head_not_mem ' ' [] v hv)]
  rfl

end Tasmota
namespace Tasmota

/-! ## A fixture row in the loop -/

theorem not_mem_of_isDecimal (v : Str) (h : isDecimal v = true) (d : Char)
    (hd : (d.isDigit || d == '.' || d == '-' || d == '+') = false) : d ∉ v := by
  intro hm
  have := List.all_eq_true.mp h d hm
  rw [hd] at this
  exact Bool.noConfusion this

theorem brace_not_mem_label (f : Field) : '{' ∉ f.label := by
  cases f <;> decide

theorem brace_not_mem_cellBefore (r : FixtureRow) : '{' ∉ r.cellBefore := by
  unfold FixtureRow.cellBefore
  cases r.wrapped <;> decide

theorem brace_not_mem_cellAfter (r : FixtureRow) : '{' ∉ r.cellAfter := by
  unfold FixtureRow.cellAfter
  cases r.wrapped <;> decide

/-- What `wellFormed` says, spelled out. -/
theorem wellFormed_iff (r : FixtureRow) :
    r.wellFormed = true ↔
      isDecimal r.value = true ∧ (∃ u, r.unit = ' ' :: u) ∧ Contains r.unit sepS = false ∧
        Contains r.unit sepM = false ∧ Contains r.unit sepE = false := by
  unfold FixtureRow.wellFormed
  simp only [Bool.and_eq_true, Bool.not_eq_true', beq_iff_eq, and_assoc]
  constructor
  · rintro ⟨h1, h2, h3⟩
    refine ⟨h1, ?_, h3⟩
    cases hu : r.unit with
    | nil => rw [hu] at h2; simp at h2
    | cons c u => rw [hu] at h2; simp at h2; exact ⟨u, by rw [h2]⟩
  · rintro ⟨h1, ⟨u, hu⟩, h3⟩
    exact ⟨h1, by rw [hu]; rfl, h3⟩

/-- In front of the unit, a fixture row has no `{`: an occurrence of a separator
in `segment ++ b` lies in `unit ++ b`. -/
theorem Contains_segment_append (r : FixtureRow) (hv : isDecimal r.value = true) (t b : Str) :
    Contains (r.segment ++ b) ('{' :: t) = Contains (r.unit ++ b) ('{' :: t) := by
  have h : '{' ∉ r.cellBefore ++ (r.value ++ r.cellAfter) := by
    intro hm
    rcases List.mem_append.mp hm with h | h
    · exact brace_not_mem_cellBefore r h
    · rcases List.mem_append.mp h with h | h
      · exact not_mem_of_isDecimal _ hv '{' (by decide) h
      · exact brace_not_mem_cellAfter r h
  have e : r.segment ++ b = (r.cellBefore ++ (r.value ++ r.cellAfter)) ++ (r.unit ++ b) := by
    unfold FixtureRow.segment; simp
  rw [e, Contains_append_of_head_not_mem _ _ _ _ h]

theorem Contains_sepM_append_sepS (x : Str) : Contains (sepM ++ x) sepS = Contains x sepS := by
  simp [sepM, sepS, Contains, List.isPrefixOf]

theorem Contains_sepE_append_sepM (x : Str) : Contains (sepE ++ x) sepM = Contains x sepM := by
  simp [sepM, sepE, Contains, List.isPrefixOf]

/-- The text of a well-formed fixture row behind its `{s}` holds no `{s}`. -/
theorem Contains_body_sepS (r : FixtureRow) (hwf : r.wellFormed = true) :
    Contains r.body sepS = false := by
  obtain ⟨hv, -, hs, -, -⟩ := (wellFormed_iff r).mp hwf
  unfold FixtureRow.body
  rw [show sepS = '{' :: ['s', '}'] from rfl,
    Contains_append_of_head_not_mem _ _ _ _ (brace_not_mem_label r.field),
    ← show sepS = '{' :: ['s', '}'] from rfl, Contains_sepM_append_sepS,
    show sepS = '{' :: ['s', '}'] from rfl, Contains_segment_append r hv,
    show sepE = '{' :: ['e', '}'] from rfl,
    Contains_append_cons '{' ['s', '}'] r.unit '{' ['e', '}'] (by decide)]
  rw [show sepS = '{' :: ['s', '}'] from rfl] at hs
  rw [hs]
  decide

/-- The pieces of a fixture row on `{m}`: the label, and the rest. -/
theorem Split_body_sepM (r : FixtureRow) (hwf : r.wellFormed = true) (tail : Str)
    (ht : Contains tail sepM = false) :
    Split (r.body ++ tail) sepM = [r.field.label, r.segment ++ (sepE ++ tail)] := by
  obtain ⟨hv, -, -, hm, -⟩ := (wellFormed_iff r).mp hwf
  have e : r.body ++ tail = r.field.label ++ sepM ++ (r.segment ++ (sepE ++ tail)) := by
    unfold FixtureRow.body; simp
  have h1 : Contains r.field.label sepM = false :=
    Contains_of_head_not_mem '{' ['m', '}'] _ (brace_not_mem_label r.field)
  have h2 : Contains (r.segment ++ (sepE ++ tail)) sepM = false := by
    have h3 := Contains_sepE_append_sepM tail
    rw [show sepM = '{' :: ['m', '}'] from rfl] at hm h3 ht ⊢
    rw [Contains_segment_append r hv, show sepE = '{' :: ['e', '}'] from rfl]
    rw [show sepE = '{' :: ['e', '}'] from rfl] at h3
    show Contains (r.unit ++ '{' :: (['e', '}'] ++ tail)) _ = false
    rw [Contains_append_cons '{' ['m', '}'] r.unit '{' (['e', '}'] ++ tail) (by decide), hm,
      Bool.false_or]
    show Contains (['{', 'e', '}'] ++ tail) _ = false
    rw [h3, ht]
  rw [e, show sepM = '{' :: ['m', '}'] from rfl, Split_append_sep '{' ['m', '}'] (by decide),
    ← show sepM = '{' :: ['m', '}'] from rfl, Split_of_not_Contains _ _ h1,
    Split_of_not_Contains _ _ h2]
  rfl

/-- The value segment of a fixture row, as the loop cuts it. -/
theorem head_Split_segment_sepE (r : FixtureRow) (hwf : r.wellFormed = true) (tail : Str) :
    (Split (r.segment ++ (sepE ++ tail)) sepE).headD [] = r.segment := by
  obtain ⟨hv, -, -, -, he⟩ := (wellFormed_iff r).mp hwf
  have h1 : Contains r.segment sepE = false := by
    have := Contains_segment_append r hv ['e', '}'] []
    simp only [List.append_nil] at this
    rw [show sepE = '{' :: ['e', '}'] from rfl] at he ⊢
    rw [this, he]
  have e : r.segment ++ (sepE ++ tail) = r.segment ++ sepE ++ tail := by simp
  rw [e, show sepE = '{' :: ['e', '}'] from rfl, Split_append_sep '{' ['e', '}'] (by decide),
    ← show sepE = '{' :: ['e', '}'] from rfl, Split_of_not_Contains _ _ h1]
  rfl

/-- One iteration of the loop on a well-formed fixture row, whatever follows the
row inside its piece: the literal goes to the float parser and the label to the
`switch`. -/
theorem rowEffect_body {F : Type} (pf : Str → Option F) (ret : TasmotaPlug F)
    (r : FixtureRow) (hwf : r.wellFormed = true) (tail : Str)
    (ht : Contains tail sepM = false) :
    rowEffect pf ret (r.body ++ tail) =
      (match pf r.value with
       | none => ret
       | some x => assign ret r.field.label x) := by
  obtain ⟨hv, ⟨u, hu⟩, -, -, -⟩ := (wellFormed_iff r).mp hwf
  have hs := Split_body_sepM r hwf tail ht
  have htok : valueToken (r.body ++ tail) = r.value := by
    unfold valueToken valueSegment
    rw [hs]
    show (Split (strip ((Split (r.segment ++ (sepE ++ tail)) sepE).headD [])) space).headD []
      = r.value
    rw [head_Split_segment_sepE r hwf tail]
    obtain ⟨u1, hu1⟩ := strip_segment r.wrapped r.value u
      (not_mem_of_isDecimal _ hv '<' (by decide))
    have e : r.segment = (if r.wrapped = true then styledCell else []) ++
        (r.value ++ ((if r.wrapped = true then spacerCell else []) ++ ' ' :: u)) := by
      unfold FixtureRow.segment FixtureRow.cellBefore FixtureRow.cellAfter
      rw [hu]
    rw [e, hu1, head_Split_space _ _ (not_mem_of_isDecimal _ hv ' ' (by decide))]
  have hl : rowLabel (r.body ++ tail) = r.field.label := by
    unfold rowLabel; rw [hs]; rfl
  unfold rowEffect
  rw [htok, hl, hs]
  rfl

end Tasmota
namespace Tasmota

/-! ## Pieces of a split -/

/-- The first piece of a split is the start of the string. -/
theorem splitGo_head_starts (sep s q : Str) (qs : List Str) (h : splitGo sep 0 s = q :: qs) :
    q <+: s := by
  induction s generalizing q qs with
  | nil =>
    simp only [splitGo, List.cons.injEq] at h
    rw [← h.1]
  | cons c cs ih =>
    by_cases hp : sep.isPrefixOf (c :: cs) = true
    · rw [splitGo_cons_of_match _ _ _ hp] at h
      simp only [List.cons.injEq] at h
      rw [← h.1]
      exact List.nil_prefix
    · rw [splitGo_cons_of_no_match _ _ _ (Bool.eq_false_iff.mpr hp)] at h
      rcases h2 : splitGo sep 0 cs with _ | ⟨q1, qs1⟩
      · exact absurd h2 (splitGo_ne_nil _ _ _)
      · rw [h2] at h
        simp only [consHead, List.cons.injEq] at h
        rw [← h.1]
        exact (List.prefix_cons_inj c).mpr (ih q1 qs1 h2)

/-- Every piece of a split is a stretch of the string. -/
theorem splitGo_mem_occurs (sep : Str) (k : Nat) (s p : Str) (h : p ∈ splitGo sep k s) :
    p <:+: s := by
  induction s generalizing k with
  | nil =>
    simp only [splitGo, List.mem_singleton] at h
    rw [h]
  | cons c cs ih =>
    cases k with
    | succ k =>
      simp only [splitGo] at h
      exact (ih k h).trans (List.suffix_cons c cs).isInfix
    | zero =>
      by_cases hp : sep.isPrefixOf (c :: cs) = true
      · rw [splitGo_cons_of_match _ _ _ hp] at h
        rcases List.mem_cons.mp h with h | h
        · rw [h]; exact List.nil_infix
        · exact (ih _ h).trans (List.suffix_cons c cs).isInfix
      · rw [splitGo_cons_of_no_match _ _ _ (Bool.eq_false_iff.mpr hp)] at h
        rcases h2 : splitGo sep 0 cs with _ | ⟨q1, qs1⟩
        · exact absurd h2 (splitGo_ne_nil _ _ _)
        · rw [h2] at h
          simp only [consHead] at h
          rcases List.mem_cons.mp h with h | h
          · rw [h]
            exact ((List.prefix_cons_inj c).mpr (splitGo_head_starts _ _ _ _ h2)).isInfix
          · have : p ∈ splitGo sep 0 cs := by rw [h2]; exact List.mem_cons_of_mem _ h
            exact (ih _ this).trans (List.suffix_cons c cs).isInfix

/-- A piece of a string that lacks a pattern lacks it too. -/
theorem Contains_piece (s sep pat p : Str) (hs : Contains s pat = false)
    (hp : p ∈ Split s sep) : Contains p pat = false := by
  rw [Contains_eq_false_iff] at hs ⊢
  exact fun h => hs (h.trans (splitGo_mem_occurs sep 0 s p hp))

theorem rowEffect_of_not_Contains {F : Type} (pf : Str → Option F) (ret : TasmotaPlug F)
    (row : Str) (h : Contains row sepM = false) : rowEffect pf ret row = ret := by
  unfold rowEffect
  rw [Split_of_not_Contains row sepM h]
  rfl

/-- Pieces without `{m}` leave the record as it is. -/
theorem foldl_rowEffect_of_not_Contains {F : Type} (pf : Str → Option F) (l : List Str)
    (ret : TasmotaPlug F) (h : ∀ p ∈ l, Contains p sepM = false) :
    l.foldl (rowEffect pf) ret = ret := by
  induction l generalizing ret with
  | nil => rfl
  | cons p l ih =>
    rw [List.foldl_cons, rowEffect_of_not_Contains pf ret p (h p (List.mem_cons_self _ _))]
    exact ih ret (fun q hq => h q (List.mem_cons_of_mem _ hq))

/-- A leading `{s}` only adds an empty piece, which the loop passes over. -/
theorem foldl_Split_sepS_append {F : Type} (pf : Str → Option F) (z : Str)
    (ret : TasmotaPlug F) :
    (Split (sepS ++ z) sepS).foldl (rowEffect pf) ret
      = (Split z sepS).foldl (rowEffect pf) ret := by
  have h : Split (sepS ++ z) sepS = [] :: Split z sepS := splitGo_sep_append '{' ['s', '}'] z
  rw [h, List.foldl_cons, rowEffect_of_not_Contains pf ret [] (by decide)]

theorem body_eq_concat (r : FixtureRow) :
    r.body = (r.field.label ++ (sepM ++ (r.segment ++ ['{', 'e']))) ++ ['}'] := by
  unfold FixtureRow.body
  simp [sepE]

/-- The loop on the pieces of fixture rows followed by a suffix without `{m}`. -/
theorem foldl_rowEffect_fixture {F : Type} (pf : Str → Option F) (rows : List FixtureRow)
    (hne : rows ≠ []) (hwf : ∀ r ∈ rows, r.wellFormed = true) (suf : Str)
    (hsuf : Contains suf sepM = false) (ret : TasmotaPlug F) :
    (Split (fixtureText rows ++ suf) sepS).foldl (rowEffect pf) ret = applyRows pf ret rows := by
  induction rows generalizing ret with
  | nil => exact absurd rfl hne
  | cons r rs ih =>
    have hr := hwf r (List.mem_cons_self _ _)
    cases rs with
    | nil =>
      rcases hss : Split suf sepS with _ | ⟨s0, ss⟩
      · exact absurd hss (Split_ne_nil _ _)
      · have hsp : Split (r.body ++ suf) sepS = (r.body ++ s0) :: ss := by
          have hb := Contains_body_sepS r hr
          rw [body_eq_concat] at hb ⊢
          exact splitGo_concat_append '{' ['s', '}'] _ '}' suf s0 ss (by decide) hb hss
        have e : fixtureText [r] ++ suf = sepS ++ (r.body ++ suf) := by
          simp [fixtureText, FixtureRow.text]
        have h0 : Contains s0 sepM = false :=
          Contains_piece suf sepS sepM s0 hsuf (by rw [hss]; exact List.mem_cons_self _ _)
        have hrest : ∀ p ∈ ss, Contains p sepM = false := fun p hp =>
          Contains_piece suf sepS sepM p hsuf (by rw [hss]; exact List.mem_cons_of_mem _ hp)
        rw [e, foldl_Split_sepS_append, hsp, List.foldl_cons, rowEffect_body pf ret r hr s0 h0,
          foldl_rowEffect_of_not_Contains pf ss _ hrest]
        rfl
    | cons r2 rs2 =>
      have ih2 := ih (by simp) (fun q hq => hwf q (List.mem_cons_of_mem _ hq))
      have e : fixtureText (r :: r2 :: rs2) ++ suf
          = (sepS ++ r.body) ++ sepS ++ (r2.body ++ (fixtureText rs2 ++ suf)) := by
        simp [fixtureText, FixtureRow.text]
      have e2 : fixtureText (r2 :: rs2) ++ suf
          = sepS ++ (r2.body ++ (fixtureText rs2 ++ suf)) := by
        simp [fixtureText, FixtureRow.text]
      have hsp : Split (sepS ++ r.body) sepS = [[], r.body] := by
        have h : Split (sepS ++ r.body) sepS = [] :: Split r.body sepS :=
          splitGo_sep_append '{' ['s', '}'] r.body
        rw [h, Split_of_not_Contains _ _ (Contains_body_sepS r hr)]
      have hb := rowEffect_body pf ret r hr [] (by decide)
      rw [List.append_nil] at hb
      rw [e, show sepS = '{' :: ['s', '}'] from rfl, Split_append_sep '{' ['s', '}'] (by decide),
        ← show sepS = '{' :: ['s', '}'] from rfl, hsp, List.foldl_append, List.foldl_cons,
        List.foldl_cons, List.foldl_nil, rowEffect_of_not_Contains pf ret [] (by decide), hb,
        ← foldl_Split_sepS_append, ← e2, ih2]
      rfl

/-- The loop on an input made of a prefix without `{m}`, fixture rows and a
suffix without `{m}`. -/
theorem foldl_rowEffect_input {F : Type} (pf : Str → Option F) (pre suf : Str)
    (rows : List FixtureRow) (hpre : Contains pre sepM = false)
    (hsuf : Contains suf sepM = false) (hne : rows ≠ [])
    (hwf : ∀ r ∈ rows, r.wellFormed = true) (ret : TasmotaPlug F) :
    (Split (pre ++ fixtureText rows ++ suf) sepS).foldl (rowEffect pf) ret
      = applyRows pf ret rows := by
  cases rows with
  | nil => exact absurd rfl hne
  | cons r rs =>
    have e : pre ++ fixtureText (r :: rs) ++ suf
        = pre ++ sepS ++ (r.body ++ (fixtureText rs ++ suf)) := by
      simp [fixtureText, FixtureRow.text]
    have e2 : fixtureText (r :: rs) ++ suf = sepS ++ (r.body ++ (fixtureText rs ++ suf)) := by
      simp [fixtureText, FixtureRow.text]
    rw [e, show sepS = '{' :: ['s', '}'] from rfl, Split_append_sep '{' ['s', '}'] (by decide),
      ← show sepS = '{' :: ['s', '}'] from rfl, List.foldl_append,
      foldl_rowEffect_of_not_Contains pf _ ret (fun p hp => Contains_piece pre sepS sepM p hpre hp),
      ← foldl_Split_sepS_append, ← e2, foldl_rowEffect_fixture pf _ hne hwf suf hsuf]

end Tasmota
namespace Tasmota

/-! ## The record after the fixture rows -/

theorem applyRows_cons {F : Type} (pf : Str → Option F) (ret : TasmotaPlug F) (r : FixtureRow)
    (rs : List FixtureRow) :
    applyRows pf ret (r :: rs)
      = applyRows pf (match pf r.value with
          | none => ret
          | some x => assign ret r.field.label x) rs := rfl

theorem applyRows_On {F : Type} (pf : Str → Option F) (ret : TasmotaPlug F)
    (rows : List FixtureRow) : (applyRows pf ret rows).On = ret.On := by
  induction rows generalizing ret with
  | nil => rfl
  | cons r rs ih =>
    rw [applyRows_cons, ih]
    cases pf r.value with
    | none => rfl
    | some x => exact assign_On _ _ _

/-- A field without a row keeps its value. -/
theorem applyRows_get_of_not_mem {F : Type} (pf : Str → Option F) (ret : TasmotaPlug F)
    (rows : List FixtureRow) (f : Field) (h : f ∉ rows.map FixtureRow.field) :
    (applyRows pf ret rows).get f = ret.get f := by
  induction rows generalizing ret with
  | nil => rfl
  | cons r rs ih =>
    have h1 : f ≠ r.field := fun e => h (by simp [e])
    have h2 : f ∉ rs.map FixtureRow.field := fun e => h (by simp at e ⊢; exact Or.inr e)
    rw [applyRows_cons, ih _ h2]
    cases pf r.value with
    | none => rfl
    | some x => exact assign_label_ne ret r.field f x h1

/-- With pairwise distinct labels, the field of a row holds the number of its
literal. -/
theorem applyRows_get_of_mem {F : Type} (pf : Str → Option F) (ret : TasmotaPlug F)
    (rows : List FixtureRow) (hd : (rows.map FixtureRow.field).Nodup) (r : FixtureRow)
    (hr : r ∈ rows) (x : F) (hx : pf r.value = some x) :
    (applyRows pf ret rows).get r.field = x := by
  induction rows generalizing ret with
  | nil => simp at hr
  | cons r0 rs ih =>
    rw [List.map_cons, List.nodup_cons] at hd
    rw [applyRows_cons]
    rcases List.mem_cons.mp hr with h | h
    · subst h
      rw [applyRows_get_of_not_mem pf _ rs _ hd.1, hx, assign_label]
    · exact ih _ hd.2 h

/-- The loop does not look at the decorative cells. -/
theorem applyRows_unwrap {F : Type} (pf : Str → Option F) (ret : TasmotaPlug F)
    (rows : List FixtureRow) :
    applyRows pf ret (rows.map FixtureRow.unwrap) = applyRows pf ret rows := by
  induction rows generalizing ret with
  | nil => rfl
  | cons r rs ih =>
    rw [List.map_cons, applyRows_cons, applyRows_cons, ih]
    rfl

/-! ## The marker `ON` and the decorative cells -/

theorem Contains_tokON_segment (r : FixtureRow) (u b : Str) (hu : r.unit = ' ' :: u) :
    Contains (r.segment ++ b) tokON = Contains (r.unwrap.segment ++ b) tokON := by
  have hsp : ∀ w : Str, Contains (spacerCell ++ ' ' :: w) tokON = Contains (' ' :: w) tokON := by
    intro w
    have := Contains_append_cons 'O' ['N'] spacerCell ' ' w (by decide)
    rw [show tokON = 'O' :: ['N'] from rfl, this,
      show Contains spacerCell ('O' :: ['N']) = false by decide, Bool.false_or]
  have hst : ∀ w : Str, Contains (styledCell ++ w) tokON = Contains w tokON := by
    intro w
    have := Contains_concat_append 'O' ['N'] "</td><td style=\x27text-align:left\x27".toList
      '>' w (by decide)
    have e : styledCell = "</td><td style=\x27text-align:left\x27".toList ++ ['>'] := rfl
    rw [show tokON = 'O' :: ['N'] from rfl, e, this, ← e,
      show Contains styledCell ('O' :: ['N']) = false by decide, Bool.false_or]
  unfold FixtureRow.segment FixtureRow.cellBefore FixtureRow.cellAfter FixtureRow.unwrap
  cases hw : r.wrapped with
  | false => rfl
  | true =>
    simp only [if_true, Bool.false_eq_true, if_false, List.nil_append, List.append_assoc, hu]
    have h1 := Contains_append_cons 'O' ['N'] r.value '<' (spacerCell.tail ++ ' ' :: (u ++ b))
      (by decide)
    have h2 := Contains_append_cons 'O' ['N'] r.value ' ' (u ++ b) (by decide)
    have e : '<' :: (spacerCell.tail ++ ' ' :: (u ++ b)) = spacerCell ++ ' ' :: (u ++ b) := rfl
    rw [e] at h1
    rw [hst]
    rw [show tokON = 'O' :: ['N'] from rfl] at hsp ⊢
    simp only [List.cons_append] at h1 h2 hsp ⊢
    rw [h1, h2, hsp]

theorem Contains_tokON_text (a b : Str) (r : FixtureRow) (u : Str) (hu : r.unit = ' ' :: u) :
    Contains (a ++ (r.text ++ b)) tokON = Contains (a ++ (r.unwrap.text ++ b)) tokON := by
  have key : ∀ y : Str, a ++ ((sepS ++ (r.field.label ++ (sepM ++ y))))
      = ((a ++ (sepS ++ (r.field.label ++ ['{', 'm']))) ++ ['}']) ++ y := by
    intro y; simp [sepM]
  have e1 : a ++ (r.text ++ b) = a ++ (sepS ++ (r.field.label ++ (sepM ++
      (r.segment ++ (sepE ++ b))))) := by
    simp [FixtureRow.text, FixtureRow.body]
  have e2 : a ++ (r.unwrap.text ++ b) = a ++ (sepS ++ (r.field.label ++ (sepM ++
      (r.unwrap.segment ++ (sepE ++ b))))) := by
    simp [FixtureRow.text, FixtureRow.body, FixtureRow.unwrap]
  rw [e1, e2, key, key, show tokON = 'O' :: ['N'] from rfl,
    Contains_concat_append 'O' ['N'] _ '}' _ (by decide),
    Contains_concat_append 'O' ['N'] _ '}' _ (by decide),
    ← show tokON = 'O' :: ['N'] from rfl, Contains_tokON_segment r u _ hu]

/-- The marker is found in an input with decorative cells exactly when it is
found in the input without them. -/
theorem Contains_tokON_fixture (rows : List FixtureRow)
    (hwf : ∀ r ∈ rows, r.wellFormed = true) (pre suf : Str) :
    Contains (pre ++ (fixtureText rows ++ suf)) tokON
      = Contains (pre ++ (fixtureText (rows.map FixtureRow.unwrap) ++ suf)) tokON := by
  induction rows generalizing pre with
  | nil => rfl
  | cons r rs ih =>
    obtain ⟨-, ⟨u, hu⟩, -⟩ := (wellFormed_iff r).mp (hwf r (List.mem_cons_self _ _))
    have e1 : pre ++ (fixtureText (r :: rs) ++ suf)
        = pre ++ (r.text ++ (fixtureText rs ++ suf)) := by
      simp [fixtureText]
    have e2 : pre ++ (r.unwrap.text ++ (fixtureText rs ++ suf))
        = (pre ++ r.unwrap.text) ++ (fixtureText rs ++ suf) := by
      simp
    have e3 : pre ++ (fixtureText ((r :: rs).map FixtureRow.unwrap) ++ suf)
        = (pre ++ r.unwrap.text) ++ (fixtureText (rs.map FixtureRow.unwrap) ++ suf) := by
      simp [fixtureText]
    rw [e1, Contains_tokON_text pre _ r u hu, e2,
      ih (fun q hq => hwf q (List.mem_cons_of_mem _ hq)), e3]

theorem wellFormed_unwrap (r : FixtureRow) : r.unwrap.wellFormed = r.wellFormed := rfl

theorem wellFormed_of_unwrap_eq (rows rows2 : List FixtureRow)
    (h : rows2.map FixtureRow.unwrap = rows.map FixtureRow.unwrap)
    (hwf : ∀ r ∈ rows, r.wellFormed = true) : ∀ r ∈ rows2, r.wellFormed = true := by
  intro r hr
  have h1 : r.unwrap ∈ rows.map FixtureRow.unwrap := by
    rw [← h]; exact List.mem_map_of_mem _ hr
  obtain ⟨q, hq, hqr⟩ := List.mem_map.mp h1
  rw [← wellFormed_unwrap r, ← hqr, wellFormed_unwrap]
  exact hwf q hq

end Tasmota
namespace Tasmota

/-! ## Inputs shaped like the fixtures -/

/-- C1: for an input shaped like the test fixtures, that is a prefix without
`{m}`, one or more well-formed fixture rows with pairwise distinct labels of the
lookup table, and a suffix without `{m}`, `parse` returns a record in which the
field of each row is exactly the number the float parser gives for the row's
literal and every numeric field without a row is 0; the record is the same for
every choice of which rows carry the decorative cells. -/
theorem parse_fixture {F : Type} [Zero F] (pf : Str → Option F) (pre suf : Str)
    (rows rows2 : List FixtureRow)
    (hpre : Contains pre sepM = false) (hsuf : Contains suf sepM = false)
    (hne : rows ≠ [])
    (hwf : ∀ r ∈ rows, r.wellFormed = true)
    (hdist : (rows.map FixtureRow.field).Nodup)
    (hsame : rows2.map FixtureRow.unwrap = rows.map FixtureRow.unwrap) :
    ∃ rec, parse pf (pre ++ fixtureText rows ++ suf) = some rec ∧
      (∀ r ∈ rows, ∀ x : F, pf r.value = some x → rec.get r.field = x) ∧
      (∀ f : Field, f ∉ rows.map FixtureRow.field → rec.get f = 0) ∧
      parse pf (pre ++ fixtureText rows2 ++ suf) = some rec := by
  have hne2 : rows2 ≠ [] := by
    intro h
    rw [h] at hsame
    cases rows with
    | nil => exact hne rfl
    | cons r rs => simp at hsame
  have hwf2 := wellFormed_of_unwrap_eq rows rows2 hsame hwf
  have hON : Contains (pre ++ fixtureText rows2 ++ suf) tokON
      = Contains (pre ++ fixtureText rows ++ suf) tokON := by
    rw [List.append_assoc, List.append_assoc, Contains_tokON_fixture rows2 hwf2,
      Contains_tokON_fixture rows hwf, hsame]
  have hinit : (initial (pre ++ fixtureText rows2 ++ suf) : TasmotaPlug F)
      = initial (pre ++ fixtureText rows ++ suf) := by
    unfold initial; rw [hON]
  refine ⟨applyRows pf (initial (pre ++ fixtureText rows ++ suf)) rows, ?_, ?_, ?_, ?_⟩
  · rw [parse_eq, foldl_rowEffect_input pf pre suf rows hpre hsuf hne hwf]
  · intro r hr x hx
    exact applyRows_get_of_mem pf _ rows hdist r hr x hx
  · intro f hf
    rw [applyRows_get_of_not_mem pf _ rows f hf, initial_get]
  · rw [parse_eq, foldl_rowEffect_input pf pre suf rows2 hpre hsuf hne2 hwf2, hinit,
      ← applyRows_unwrap pf _ rows2, hsame, applyRows_unwrap]

set_option maxRecDepth 100000 in
/-- The test input `office-air-on` is a prefix, nine fixture rows and a suffix. -/
theorem officeAirOn_shape :
    officeAirOn = officeAirPrefix ++ fixtureText officeAirRows ++ officeAirSuffix := by
  decide

theorem initial_On {F : Type} [Zero F] (input : Str) :
    (initial input : TasmotaPlug F).On = Contains input tokON := rfl

set_option maxRecDepth 100000 in
/-- The test input `office-air-on` carries the marker `ON`. -/
theorem officeAirOn_marker : Contains officeAirOn tokON = true := by
  decide

/-- What the example parser returns for the literals of `office-air-on` and for
`237`. -/
theorem decimalParser_samples :
    decimalParser "237".toList = some 237 ∧
    decimalParser "236".toList = some 236 ∧
    decimalParser "0.460".toList = some 0.46 ∧
    decimalParser "51".toList = some 51 ∧
    decimalParser "108".toList = some 108 ∧
    decimalParser "96".toList = some 96 ∧
    decimalParser "0.47".toList = some 0.47 ∧
    decimalParser "0.003".toList = some 0.003 ∧
    decimalParser "0.207".toList = some 0.207 ∧
    decimalParser "1.124".toList = some 1.124 := by
  refine ⟨?_, ?_, ?_, ?_, ?_, ?_, ?_, ?_, ?_, ?_⟩ <;>
    simp [decimalParser, isDigits, digitsValue] <;> norm_num

/-- C1 at the test case `office-air-on` of `TestParser`: the input is a prefix,
nine rows and a suffix as the theorem asks, the example parser reads `237` as
237 and `0.460` as 0.46, and `parse` returns the record the test wants, with the
decorative cells and without them. -/
theorem parse_fixture_witness :
    officeAirOn = officeAirPrefix ++ fixtureText officeAirRows ++ officeAirSuffix ∧
    Contains officeAirPrefix sepM = false ∧
    Contains officeAirSuffix sepM = false ∧
    officeAirRows ≠ [] ∧
    (∀ r ∈ officeAirRows, r.wellFormed = true) ∧
    (officeAirRows.map FixtureRow.field).Nodup ∧
    officeAirRowsBare.map FixtureRow.unwrap = officeAirRows.map FixtureRow.unwrap ∧
    decimalParser "237".toList = some 237 ∧
    decimalParser "0.460".toList = some 0.46 ∧
    parse decimalParser officeAirOn = some officeAirWant ∧
    parse decimalParser (officeAirPrefix ++ fixtureText officeAirRowsBare ++ officeAirSuffix)
      = some officeAirWant := by
  obtain ⟨rec, h1, h2, -, h4⟩ := parse_fixture decimalParser officeAirPrefix officeAirSuffix
    officeAirRows officeAirRowsBare (by decide) (by decide) (by decide) (by decide) (by decide)
    (by decide)
  obtain ⟨p237, p1, p2, p3, p4, p5, p6, p7, p8, p9⟩ := decimalParser_samples
  have hOn : rec.On = true := by
    have h := h1
    rw [parse_eq, ← officeAirOn_shape] at h
    rw [← Option.some.inj h, foldl_rowEffect_On, initial_On, officeAirOn_marker]
  have e1 := h2 (officeAirRows.get ⟨0, by decide⟩) (by decide) _ p1
  have e2 := h2 (officeAirRows.get ⟨1, by decide⟩) (by decide) _ p2
  have e3 := h2 (officeAirRows.get ⟨2, by decide⟩) (by decide) _ p3
  have e4 := h2 (officeAirRows.get ⟨3, by decide⟩) (by decide) _ p4
  have e5 := h2 (officeAirRows.get ⟨4, by decide⟩) (by decide) _ p5
  have e6 := h2 (officeAirRows.get ⟨5, by decide⟩) (by decide) _ p6
  have e7 := h2 (officeAirRows.get ⟨6, by decide⟩) (by decide) _ p7
  have e8 := h2 (officeAirRows.get ⟨7, by decide⟩) (by decide) _ p8
  have e9 := h2 (officeAirRows.get ⟨8, by decide⟩) (by decide) _ p9
  have hrec : rec = officeAirWant := by
    rcases rec with ⟨o, v, c, p, ap, rp, fa, td, yd, tt⟩
    change v = 236 at e1
    change c = 0.46 at e2
    change p = 51 at e3
    change ap = 108 at e4
    change rp = 96 at e5
    change fa = 0.47 at e6
    change td = 0.003 at e7
    change yd = 0.207 at e8
    change tt = 1.124 at e9
    change o = true at hOn
    rw [e1, e2, e3, e4, e5, e6, e7, e8, e9, hOn]
    rfl
  rw [hrec] at h1 h4
  refine ⟨officeAirOn_shape, by decide, by decide, by decide, by decide, by decide, by decide,
    p237, p2, ?_, h4⟩
  rw [officeAirOn_shape]
  exact h1

/-- The rows cannot be left out: with no row between them, a prefix and a suffix
that each lack `{m}` can form one where they meet.  Here the prefix is `Voltage{`
and the suffix `m}5 V{e}`, and the input reads as a `Voltage` row. -/
theorem parse_seam_without_rows :
    Contains "Voltage\x7b".toList sepM = false ∧
    Contains "m\x7d5 V{e}".toList sepM = false ∧
    ∃ rec, parse digitsParser ("Voltage\x7b".toList ++ fixtureText [] ++ "m\x7d5 V{e}".toList)
        = some rec ∧ rec.get Field.Voltage = 5 := by
  refine ⟨by decide, by decide, ?_⟩
  exact ⟨{ On := false, Voltage := 5, Current := 0, Power := 0, ApparentPower := 0,
           ReactivePower := 0, Factor := 0, Today := 0, Yesterday := 0, Total := 0 },
    by decide, by decide⟩

end Tasmota
namespace Tasmota

/-! ## The probe handler -/

/-- C7: a request without the query parameter `target` is answered with status
400 and the text `Target parameter is missing`; no network call and no parsing
takes place. -/
theorem tasmotaHandler_missing_target {F : Type} [Zero F] [One F] (pf : Str → Option F)
    (world : Str → Device) (duration : F) (r : Request) (h : r.target = none) :
    tasmotaHandler pf world duration r
      = some ({ status := 400, body := Body.text "Target parameter is missing\n".toList }, []) := by
  unfold tasmotaHandler paramsGet
  rw [h]
  rfl

/-- C7 at a request that carries no parameter at all. -/
theorem tasmotaHandler_missing_target_witness :
    ({ target := none, ctx := Context.background } : Request).target = none ∧
    tasmotaHandler digitsParser sampleWorld 3 { target := none, ctx := Context.background }
      = some ({ status := 400, body := Body.text "Target parameter is missing\n".toList }, []) :=
  ⟨rfl, tasmotaHandler_missing_target digitsParser sampleWorld 3 _ rfl⟩

/-- The two gauges of the handler and the ten of the probe register without a
duplicate. -/
theorem registerAll_probe {F : Type} [Zero F] :
    registerAll ([NewGauge "probe_success".toList, NewGauge "probe_duration_seconds".toList] :
        Registry F) (telemetryNames.map NewGauge)
      = some (metricNames.map NewGauge) := by
  rfl

theorem registerAll_handler {F : Type} [Zero F] :
    registerAll ([] : Registry F)
        [NewGauge "probe_success".toList, NewGauge "probe_duration_seconds".toList]
      = some [NewGauge "probe_success".toList, NewGauge "probe_duration_seconds".toList] := by
  rfl

theorem paramsGet_of_target (r : Request) (t : Str) (h : r.target = some t) :
    paramsGet r = t := by
  unfold paramsGet; rw [h]; rfl

/-- What the handler answers when the fetch fails. -/
theorem tasmotaHandler_of_failure {F : Type} [Zero F] [One F] (pf : Str → Option F)
    (world : Str → Device) (duration : F) (r : Request) (t : Str)
    (ht : r.target = some t) (hne : t ≠ [])
    (hfail : clientGet 5000 (world (probeURL t)) = Fetch.getError ∨
      clientGet 5000 (world (probeURL t)) = Fetch.readError) :
    tasmotaHandler pf world duration r
      = some ({ status := 200,
                body := Body.metrics (gaugeSet (metricNames.map NewGauge)
                  "probe_duration_seconds".toList duration) },
              [Event.get (probeURL t)]) := by
  unfold tasmotaHandler
  simp only [paramsGet_of_target r t ht, if_neg hne, registerAll_handler, probeTasmota,
    registerAll_probe]
  rcases hfail with h | h <;> rw [h] <;> rfl

/-- C8: when the fetch fails, the handler still answers with status 200 and a
complete document: the twelve instruments are registered under pairwise distinct
names, `probe_success` is 0 and the ten telemetry gauges are 0. -/
theorem tasmotaHandler_failed_probe {F : Type} [Zero F] [One F] (pf : Str → Option F)
    (world : Str → Device) (duration : F) (r : Request) (t : Str)
    (ht : r.target = some t) (hne : t ≠ [])
    (hfail : clientGet 5000 (world (probeURL t)) = Fetch.getError ∨
      clientGet 5000 (world (probeURL t)) = Fetch.readError) :
    ∃ resp events, tasmotaHandler pf world duration r = some (resp, events) ∧
      resp.status = 200 ∧
      resp.body = Body.metrics resp.registry ∧
      resp.registry.map Gauge.name = metricNames ∧
      (resp.registry.map Gauge.name).Nodup ∧
      resp.registry.length = 12 ∧
      valueOf resp.registry "probe_success".toList = some 0 ∧
      ∀ n ∈ telemetryNames, valueOf resp.registry n = some 0 := by
  refine ⟨_, _, tasmotaHandler_of_failure pf world duration r t ht hne hfail,
    rfl, rfl, rfl, ?_, rfl, rfl, ?_⟩
  · show (metricNames).Nodup
    decide
  · intro n hn
    simp only [telemetryNames, List.mem_cons, List.mem_singleton, List.not_mem_nil,
      or_false] at hn
    rcases hn with h | h | h | h | h | h | h | h | h | h <;> subst h <;> rfl

/-- C8 at a device that refuses the connection. -/
theorem tasmotaHandler_failed_probe_witness :
    sampleRequest.target = some "plug:80".toList ∧ "plug:80".toList ≠ [] ∧
    (clientGet 5000 (deadWorld (probeURL "plug:80".toList)) = Fetch.getError ∨
      clientGet 5000 (deadWorld (probeURL "plug:80".toList)) = Fetch.readError) ∧
    ∃ resp events, tasmotaHandler digitsParser deadWorld 3 sampleRequest = some (resp, events) ∧
      resp.status = 200 ∧
      resp.body = Body.metrics resp.registry ∧
      resp.registry.map Gauge.name = metricNames ∧
      (resp.registry.map Gauge.name).Nodup ∧
      resp.registry.length = 12 ∧
      valueOf resp.registry "probe_success".toList = some 0 ∧
      ∀ n ∈ telemetryNames, valueOf resp.registry n = some 0 :=
  ⟨rfl, by decide, by decide,
    tasmotaHandler_failed_probe digitsParser deadWorld 3 sampleRequest _ rfl (by decide)
      (by decide)⟩

end Tasmota
namespace Tasmota

/-- What the handler answers when the fetch succeeds with body `b` and `parse`
returns `tp`. -/
theorem tasmotaHandler_of_body {F : Type} [Zero F] [One F] (pf : Str → Option F)
    (world : Str → Device) (duration : F) (r : Request) (t b : Str) (tp : TasmotaPlug F)
    (ht : r.target = some t) (hne : t ≠ [])
    (hok : clientGet 5000 (world (probeURL t)) = Fetch.body b) (hp : parse pf b = some tp) :
    tasmotaHandler pf world duration r
      = some ({ status := 200,
                body := Body.metrics
                  [{ name := "probe_success".toList, value := 1 },
                   { name := "probe_duration_seconds".toList, value := duration },
                   { name := "tasmota_on".toList, value := if tp.On then 1 else 0 },
                   { name := "tasmota_voltage_volts".toList, value := tp.Voltage },
                   { name := "tasmota_current_amperes".toList, value := tp.Current },
                   { name := "tasmota_power_watts".toList, value := tp.Power },
                   { name := "tasmota_apparent_power_voltamperes".toList,
                     value := tp.ApparentPower },
                   { name := "tasmota_reactive_power_voltamperesreactive".toList,
                     value := tp.ReactivePower },
                   { name := "tasmota_power_factor".toList, value := tp.Factor },
                   { name := "tasmota_today_kwh_total".toList, value := tp.Today },
                   { name := "tasmota_yesterday_kwh_total".toList, value := tp.Yesterday },
                   { name := "tasmota_kwh_total".toList, value := tp.Total }] },
              [Event.get (probeURL t), Event.parse b]) := by
  unfold tasmotaHandler
  simp only [paramsGet_of_target r t ht, if_neg hne, registerAll_handler, probeTasmota,
    registerAll_probe, hok, hp]
  simp [gaugeSet, metricNames, telemetryNames, NewGauge]

/-- C9: when the fetch succeeds with body `b`, the handler answers with a scope
in which `probe_success` is 1, `probe_duration_seconds` is the elapsed time,
`tasmota_on` is 1 or 0 as `parse(b).On` says, and the nine measurement gauges
hold the nine numeric fields of `parse(b)`. -/
theorem tasmotaHandler_successful_probe {F : Type} [Zero F] [One F] (pf : Str → Option F)
    (world : Str → Device) (duration : F) (r : Request) (t b : Str)
    (ht : r.target = some t) (hne : t ≠ [])
    (hok : clientGet 5000 (world (probeURL t)) = Fetch.body b) :
    ∃ tp resp, parse pf b = some tp ∧
      tasmotaHandler pf world duration r
        = some (resp, [Event.get (probeURL t), Event.parse b]) ∧
      resp.status = 200 ∧
      resp.body = Body.metrics resp.registry ∧
      resp.registry.map Gauge.name = metricNames ∧
      valueOf resp.registry "probe_success".toList = some 1 ∧
      valueOf resp.registry "probe_duration_seconds".toList = some duration ∧
      valueOf resp.registry "tasmota_on".toList = some (if tp.On then 1 else 0) ∧
      valueOf resp.registry "tasmota_voltage_volts".toList = some tp.Voltage ∧
      valueOf resp.registry "tasmota_current_amperes".toList = some tp.Current ∧
      valueOf resp.registry "tasmota_power_watts".toList = some tp.Power ∧
      valueOf resp.registry "tasmota_apparent_power_voltamperes".toList
        = some tp.ApparentPower ∧
      valueOf resp.registry "tasmota_reactive_power_voltamperesreactive".toList
        = some tp.ReactivePower ∧
      valueOf resp.registry "tasmota_power_factor".toList = some tp.Factor ∧
      valueOf resp.registry "tasmota_today_kwh_total".toList = some tp.Today ∧
      valueOf resp.registry "tasmota_yesterday_kwh_total".toList = some tp.Yesterday ∧
      valueOf resp.registry "tasmota_kwh_total".toList = some tp.Total := by
  exact ⟨_, _, parse_eq pf b,
    tasmotaHandler_of_body pf world duration r t b _ ht hne hok (parse_eq pf b),
    rfl, rfl, rfl, rfl, rfl, rfl, rfl, rfl, rfl, rfl, rfl, rfl, rfl, rfl, rfl⟩

/-- C9 at a device that answers with a `Voltage` row and the marker `ON`. -/
theorem tasmotaHandler_successful_probe_witness :
    sampleRequest.target = some "plug:80".toList ∧ "plug:80".toList ≠ [] ∧
    clientGet 5000 (sampleWorld (probeURL "plug:80".toList))
      = Fetch.body "{s}Voltage{m}237 V{e}ON".toList ∧
    ∃ tp resp, parse digitsParser "{s}Voltage{m}237 V{e}ON".toList = some tp ∧
      tasmotaHandler digitsParser sampleWorld 3 sampleRequest
        = some (resp, [Event.get (probeURL "plug:80".toList),
            Event.parse "{s}Voltage{m}237 V{e}ON".toList]) ∧
      resp.status = 200 ∧
      resp.body = Body.metrics resp.registry ∧
      resp.registry.map Gauge.name = metricNames ∧
      valueOf resp.registry "probe_success".toList = some 1 ∧
      valueOf resp.registry "probe_duration_seconds".toList = some 3 ∧
      valueOf resp.registry "tasmota_on".toList = some (if tp.On then 1 else 0) ∧
      valueOf resp.registry "tasmota_voltage_volts".toList = some tp.Voltage ∧
      valueOf resp.registry "tasmota_current_amperes".toList = some tp.Current ∧
      valueOf resp.registry "tasmota_power_watts".toList = some tp.Power ∧
      valueOf resp.registry "tasmota_apparent_power_voltamperes".toList
        = some tp.ApparentPower ∧
      valueOf resp.registry "tasmota_reactive_power_voltamperesreactive".toList
        = some tp.ReactivePower ∧
      valueOf resp.registry "tasmota_power_factor".toList = some tp.Factor ∧
      valueOf resp.registry "tasmota_today_kwh_total".toList = some tp.Today ∧
      valueOf resp.registry "tasmota_yesterday_kwh_total".toList = some tp.Yesterday ∧
      valueOf resp.registry "tasmota_kwh_total".toList = some tp.Total :=
  ⟨rfl, by decide, by decide,
    tasmotaHandler_successful_probe digitsParser sampleWorld 3 sampleRequest _ _ rfl
      (by decide) (by decide)⟩

/-- C10, the code at a request whose client gives up after 1 s while the device
needs 2 s: an exchange bound to the handler's derived context would fail, but
`probeTasmota` does not hand its context to the client, so the fetch completes,
`probe_success` is 1 and the page is parsed; the probe gives the same result
under every context. -/
theorem tasmotaHandler_ignores_cancellation :
    clientDo 5000 (Context.WithTimeout cancelledRequest.ctx 5000)
        (sampleWorld (probeURL "plug:80".toList)) = Fetch.getError ∧
    (tasmotaHandler digitsParser sampleWorld 2 cancelledRequest).map
        (fun x => (valueOf x.1.registry "probe_success".toList,
          valueOf x.1.registry "tasmota_voltage_volts".toList, x.2))
      = some (some 1, some 237, [Event.get (probeURL "plug:80".toList),
          Event.parse "{s}Voltage{m}237 V{e}ON".toList]) ∧
    ∀ ctx : Context,
      probeTasmota digitsParser sampleWorld ctx "plug:80".toList
          [NewGauge "probe_success".toList, NewGauge "probe_duration_seconds".toList]
        = probeTasmota digitsParser sampleWorld Context.background "plug:80".toList
          [NewGauge "probe_success".toList, NewGauge "probe_duration_seconds".toList] :=
  ⟨by decide, by decide, fun _ => rfl⟩

end Tasmota

namespace Tasmota

/-! ## The stripping step -/

/-- With an empty replacement, `ReplaceAll` puts the pieces of `Split` together. -/
theorem replaceGo_nil_eq_flatten (old : Str) (k : Nat) (s : Str) :
    replaceGo old [] k s = (splitGo old k s).flatten := by
  induction s generalizing k with
  | nil => cases k <;> simp [replaceGo, splitGo]
  | cons c cs ih =>
    cases k with
    | succ k => simpa only [replaceGo, splitGo] using ih k
    | zero =>
      by_cases hp : old.isPrefixOf (c :: cs) = true
      · rw [splitGo_cons_of_match _ _ _ hp]
        simp only [replaceGo, hp, if_true, List.nil_append, List.flatten_cons]
        exact ih _
      · rw [splitGo_cons_of_no_match _ _ _ (Bool.eq_false_iff.mpr hp)]
        simp only [replaceGo, hp]
        rw [if_neg (by simp), ih 0]
        rcases h2 : splitGo old 0 cs with _ | ⟨q, qs⟩
        · exact absurd h2 (splitGo_ne_nil _ _ _)
        · simp [consHead]

theorem ReplaceAll_nil_eq_removeAll (s old : Str) : ReplaceAll s old [] = removeAll s old :=
  replaceGo_nil_eq_flatten old 0 s

/-- A string without `old` is left as it is. -/
theorem replaceGo_of_not_Contains (old new s : Str) (h : Contains s old = false) :
    replaceGo old new 0 s = s := by
  induction s with
  | nil => rfl
  | cons c cs ih =>
    simp only [Contains, Bool.or_eq_false_iff] at h
    simp [replaceGo, h.1, ih h.2]

theorem ReplaceAll_of_not_Contains (s old new : Str) (h : Contains s old = false) :
    ReplaceAll s old new = s :=
  replaceGo_of_not_Contains old new s h

/-- A string without a part of a pattern is without the pattern. -/
theorem not_Contains_of_part (s part pat : Str) (hp : Contains pat part = true)
    (h : Contains s part = false) : Contains s pat = false := by
  rw [Contains_eq_false_iff] at h ⊢
  exact fun hc => h (((Contains_iff_occurs _ _).mp hp).trans hc)

/-- The test for `<td` does not change what the stripping step returns. -/
theorem strip_eq_unguarded (s : Str) :
    strip s = ReplaceAll (ReplaceAll s styledCell []) spacerCell [] := by
  unfold strip
  split
  · rfl
  · rename_i hg
    have hg2 : Contains s tokTd = false := Bool.eq_false_iff.mpr hg
    rw [ReplaceAll_of_not_Contains s styledCell []
        (not_Contains_of_part s tokTd styledCell (by decide) hg2),
      ReplaceAll_of_not_Contains s spacerCell []
        (not_Contains_of_part s tokTd spacerCell (by decide) hg2)]

/-- C11: for every value segment, the cleaned segment that `parse` tokenizes is
the segment with the styled cell removed and then the spacer cell removed; the
test for `<td` never changes the result, the value token of every row is cut
from that cleaned segment, and a segment with neither cell passes through
unchanged. -/
theorem strip_refines_stripSpec (s : Str) :
    strip s = stripSpec s ∧
    strip s = ReplaceAll (ReplaceAll s styledCell []) spacerCell [] ∧
    (∀ row : Str, valueToken row = (Split (stripSpec (valueSegment row)) space).headD []) ∧
    (Contains s styledCell = false → Contains s spacerCell = false → strip s = s) := by
  have key : ∀ x : Str, strip x = stripSpec x := by
    intro x
    rw [strip_eq_unguarded, ReplaceAll_nil_eq_removeAll, ReplaceAll_nil_eq_removeAll]
    rfl
  refine ⟨key s, strip_eq_unguarded s, ?_, ?_⟩
  · intro row
    unfold valueToken
    rw [key]
  · intro h1 h2
    rw [strip_eq_unguarded, ReplaceAll_of_not_Contains s styledCell [] h1,
      ReplaceAll_of_not_Contains s spacerCell [] h2]

/-- C11 at the segment of the `Voltage` row of the fixtures, at a segment with
`<td` but neither cell, and at a plain segment. -/
theorem strip_refines_stripSpec_witness :
    (strip "</td><td style=\x27text-align:left\x27>237</td><td>&nbsp;</td><td> V".toList
        = "237 V".toList ∧
      stripSpec "</td><td style=\x27text-align:left\x27>237</td><td>&nbsp;</td><td> V".toList
        = "237 V".toList) ∧
    (Contains "<td>5 A".toList styledCell = false ∧
      Contains "<td>5 A".toList spacerCell = false ∧
      strip "<td>5 A".toList = "<td>5 A".toList) ∧
    strip "5 A".toList = stripSpec "5 A".toList :=
  ⟨⟨by decide, by decide⟩,
    ⟨by decide, by decide,
      (strip_refines_stripSpec "<td>5 A".toList).2.2.2 (by decide) (by decide)⟩,
    (strip_refines_stripSpec "5 A".toList).1⟩

/-! ## The last row of a label -/

/-- What one iteration does to a field, in terms of what the row offers to it. -/
theorem rowEffect_get {F : Type} (pf : Str → Option F) (f : Field) (ret : TasmotaPlug F)
    (row : Str) : (rowEffect pf ret row).get f = (rowValue pf f row).getD (ret.get f) := by
  unfold rowEffect rowValue
  by_cases hc : Contains row sepM = true
  · have hlen : ¬ (Split row sepM).length < 2 :=
      Nat.not_lt.mpr (length_Split_of_Contains row '{' ['m', '}'] hc)
    rw [if_neg hlen]
    by_cases hl : rowLabel row = f.label
    · rw [if_pos ⟨hc, hl⟩]
      cases pf (valueToken row) with
      | none => rfl
      | some x => rw [hl]; exact assign_label ret f x
    · rw [if_neg (fun h => hl h.2)]
      cases pf (valueToken row) with
      | none => rfl
      | some x => exact assign_get_of_ne ret _ x f hl
  · have hlen : (Split row sepM).length < 2 := by
      rw [Split_of_not_Contains row sepM (Bool.eq_false_iff.mpr hc)]
      exact Nat.lt_succ_self 1
    rw [if_pos hlen, if_neg (fun h => hc h.1)]
    rfl

/-- After the loop a field holds the number of the last row that offers one, or
what it held before when no row does. -/
theorem foldl_rowEffect_get {F : Type} (pf : Str → Option F) (f : Field) (rows : List Str)
    (ret : TasmotaPlug F) :
    (rows.foldl (rowEffect pf) ret).get f = (lastValue pf f rows).getD (ret.get f) := by
  unfold lastValue
  induction rows generalizing ret with
  | nil => rfl
  | cons row rows ih =>
    rw [List.foldl_cons, ih, rowEffect_get, List.filterMap_cons]
    cases rowValue pf f row with
    | none => rfl
    | some x =>
      simp only [Option.getD_some, List.getLast?_cons]

/-- C12: for every input and every field, `parse` returns a record in which the
field is the number of the last retained row, labelled exactly with the field's
label, whose value token the float parser accepts, and 0 when there is no such
row. -/
theorem parse_field_last_row {F : Type} [Zero F] (pf : Str → Option F) (input : Str)
    (f : Field) :
    ∃ r, parse pf input = some r ∧
      r.get f = (lastValue pf f (Split input sepS)).getD 0 := by
  refine ⟨_, parse_eq pf input, ?_⟩
  rw [foldl_rowEffect_get, initial_get]

/-- C12 at an input with three `Voltage` rows, the tokens `1`, `5` and `abc`:
the second overwrites the first, the third is malformed and resets nothing. -/
theorem parse_field_last_row_witness :
    lastValue digitsParser Field.Voltage
        (Split "{s}Voltage{m}1 V{e}{s}Voltage{m}5 V{e}{s}Voltage{m}abc V{e}".toList sepS)
      = some 5 ∧
    digitsParser (valueToken "Voltage{m}abc V{e}".toList) = none ∧
    ∃ r, parse digitsParser
        "{s}Voltage{m}1 V{e}{s}Voltage{m}5 V{e}{s}Voltage{m}abc V{e}".toList = some r ∧
      r.get Field.Voltage
        = (lastValue digitsParser Field.Voltage
            (Split "{s}Voltage{m}1 V{e}{s}Voltage{m}5 V{e}{s}Voltage{m}abc V{e}".toList
              sepS)).getD 0 :=
  ⟨by decide, by decide, parse_field_last_row digitsParser _ Field.Voltage⟩

end Tasmota
